import Mathlib

/-! # goutils: rolling window statistics and tiered store read path

A shallow embedding of `window.go` (the bucketed rolling window) and of
`store_operator.go` (the tiered `Store.Get`), with the properties of the
specification stated and proved over it.

Modelling conventions.

* The `int64` counters of a bucket are mathematical integers (`Int`); a counter
  only moves by `+1` per recorded event, by a reset to `0`, and the carried
  aggregates by adding or subtracting bucket counters.
* The bucket slice is a `List bucket`.  Every slice access `buckets[i]` of the
  source is an explicit lookup `buckets[i]?`; an out-of-range index (a Go
  run-time fault) makes the operation return `none`.
* The cursors `latest`, `oldest` and the retained bucket count `bucketNum` are
  natural numbers: the cursors start at `0` and only move by `++` and by
  `-= len(buckets)` under the guard `>= len(buckets)`.
* The mutex, the ticker and the stop channel are not part of the sequential
  state; one firing of the ticker is one call of `Window.refresh`.  The
  goroutine of `autoLoad` and the call of `Stop` are a separate small
  transition system, `Task`.
* The rates exist twice.  `Window.SuccessRateF32` and `Window.ErrorRateF32`
  follow the source's `float32` arithmetic: `F32` is IEEE 754 binary32 with
  round to nearest, ties to even, for the conversion `float32(x)` and for the
  division.  `Window.SuccessRate` and `Window.ErrorRate` are the same bodies
  with the quotient taken as an exact rational, for the statements made over
  rational rates.
* In `Store.Get` the three tiers and the configuration are parameters, and the
  function returns, next to its result, the list of tiers whose `Get` it
  called, in call order.
-/

namespace goutils

/-! ## window.go -/

/-- A bucket has three counters: success / fail / timeout. -/
structure bucket where
  success : Int
  fail : Int
  timeout : Int
deriving DecidableEq

/-- Source `bucket.Succeed`: `atomic.AddInt64(&b.success, 1)`. -/
def bucket.Succeed (b : bucket) : bucket := { b with success := b.success + 1 }

/-- Source `bucket.SuccessCount`. -/
def bucket.SuccessCount (b : bucket) : Int := b.success

/-- Source `bucket.Fail`: `atomic.AddInt64(&b.fail, 1)`. -/
def bucket.Fail (b : bucket) : bucket := { b with fail := b.fail + 1 }

/-- Source `bucket.FailCount`. -/
def bucket.FailCount (b : bucket) : Int := b.fail

/-- Source `bucket.Timeout`: `atomic.AddInt64(&b.timeout, 1)`. -/
def bucket.Timeout (b : bucket) : bucket := { b with timeout := b.timeout + 1 }

/-- Source `bucket.TimeoutCount`. -/
def bucket.TimeoutCount (b : bucket) : Int := b.timeout

/-- Source `bucket.Reset`: the three counters are stored to zero. -/
def bucket.Reset (b : bucket) : bucket :=
  { { { b with success := 0 } with fail := 0 } with timeout := 0 }

/-- The sequential state of a `Window`. -/
structure Window where
  buckets : List bucket
  oldest : Nat
  latest : Nat
  bucketDuration : Int
  bucketNum : Nat
  firstTrip : Bool
  preSuccess : Int
  preFail : Int
  preTimeout : Int
deriving DecidableEq

/-- Source constant `DEFAULT_BUCKET_DURATION`: 50 ms, in nanoseconds. -/
def DEFAULT_BUCKET_DURATION : Int := 1000000 * 50

/-- Source constant `DEFAULT_BUCKET_NUMS`. -/
def DEFAULT_BUCKET_NUMS : Nat := 100

/-- Source `NewWindowWithOption`: `make([]bucket, bucketNum+2)` is a slice of
zeroed buckets; the fields not listed in the literal are zero. -/
def NewWindowWithOption (bucketDuration : Int) (bucketNum : Nat) : Window :=
  { buckets := List.replicate (bucketNum + 2) { success := 0, fail := 0, timeout := 0 }
    oldest := 0
    latest := 0
    firstTrip := true
    bucketDuration := bucketDuration
    bucketNum := bucketNum
    preSuccess := 0
    preFail := 0
    preTimeout := 0 }

/-- Source `NewWindow`. -/
def NewWindow : Window := NewWindowWithOption DEFAULT_BUCKET_DURATION DEFAULT_BUCKET_NUMS

/-- Source `Window.refresh` (the body between `Lock` and `Unlock`). -/
def Window.refresh (w : Window) : Option Window :=
  -- latest moves forward
  match w.buckets[w.latest]? with
  | none => none
  | some cur =>
    let preSuccess := w.preSuccess + cur.SuccessCount
    let preFail := w.preFail + cur.FailCount
    let preTimeout := w.preTimeout + cur.TimeoutCount
    let latest := w.latest + 1
    let firstTrip := if w.firstTrip && decide (latest ≥ w.bucketNum) then false else w.firstTrip
    let latest := if latest ≥ w.buckets.length then latest - w.buckets.length else latest
    match w.buckets[latest]? with
    | none => none
    | some fresh =>
      let buckets := w.buckets.set latest fresh.Reset
      -- oldest moves forward
      if !firstTrip then
        match buckets[w.oldest]? with
        | none => none
        | some old =>
          let preSuccess := preSuccess - old.SuccessCount
          let preFail := preFail - old.FailCount
          let preTimeout := preTimeout - old.TimeoutCount
          let oldest := w.oldest + 1
          let oldest := if oldest ≥ buckets.length then oldest - buckets.length else oldest
          some { w with
            buckets := buckets, oldest := oldest, latest := latest, firstTrip := firstTrip,
            preSuccess := preSuccess, preFail := preFail, preTimeout := preTimeout }
      else
        some { w with
          buckets := buckets, latest := latest, firstTrip := firstTrip,
          preSuccess := preSuccess, preFail := preFail, preTimeout := preTimeout }

/-- Source `Window.Succeed`. -/
def Window.Succeed (w : Window) : Option Window :=
  match w.buckets[w.latest]? with
  | none => none
  | some b => some { w with buckets := w.buckets.set w.latest b.Succeed }

/-- Source `Window.SuccessCount`. -/
def Window.SuccessCount (w : Window) : Option Int :=
  match w.buckets[w.latest]? with
  | none => none
  | some b => some (b.SuccessCount + w.preSuccess)

/-- Source `Window.Fail`. -/
def Window.Fail (w : Window) : Option Window :=
  match w.buckets[w.latest]? with
  | none => none
  | some b => some { w with buckets := w.buckets.set w.latest b.Fail }

/-- Source `Window.FailCount`. -/
def Window.FailCount (w : Window) : Option Int :=
  match w.buckets[w.latest]? with
  | none => none
  | some b => some (b.FailCount + w.preFail)

/-- Source `Window.Timeout`. -/
def Window.Timeout (w : Window) : Option Window :=
  match w.buckets[w.latest]? with
  | none => none
  | some b => some { w with buckets := w.buckets.set w.latest b.Timeout }

/-- Source `Window.TimeoutCount`. -/
def Window.TimeoutCount (w : Window) : Option Int :=
  match w.buckets[w.latest]? with
  | none => none
  | some b => some (b.TimeoutCount + w.preTimeout)

/-- Source `Window.SuccessRate`: `SuccessRate = success / total`, with the
quotient taken as an exact rational; `Window.SuccessRateF32` is the same body
with the `float32` arithmetic of the source. -/
def Window.SuccessRate (w : Window) : Option ℚ :=
  match w.buckets[w.latest]? with
  | none => none
  | some b =>
    let succ := b.SuccessCount + w.preSuccess
    let fail := b.FailCount + w.preFail
    let timeout := b.TimeoutCount + w.preTimeout
    let total := succ + fail + timeout
    if total = 0 then
      some 0
    else
      some ((succ : ℚ) / (total : ℚ))

/-- Source `Window.ErrorRate`: `ErrorRate = (fail + timeout) / total`, with the
quotient taken as an exact rational; `Window.ErrorRateF32` is the same body
with the `float32` arithmetic of the source. -/
def Window.ErrorRate (w : Window) : Option ℚ :=
  match w.buckets[w.latest]? with
  | none => none
  | some b =>
    let succ := b.SuccessCount + w.preSuccess
    let fail := b.FailCount + w.preFail
    let timeout := b.TimeoutCount + w.preTimeout
    let total := succ + fail + timeout
    if total = 0 then
      some 0
    else
      some (((fail + timeout : Int) : ℚ) / (total : ℚ))

/-! ## float32 arithmetic -/

/-- A `float32` value: not-a-number, an infinity with its sign, or the finite
value `(-1)^neg * m * 2^e`.  Zero is `fin neg 0 0`; a normal number has
`2^23 ≤ m < 2^24` and `-149 ≤ e ≤ 104`; a subnormal number has `m < 2^23` and
`e = -149`. -/
inductive F32 where
  | nan
  | inf (neg : Bool)
  | fin (neg : Bool) (m : Nat) (e : Int)
deriving DecidableEq

/-- Binary logarithm by halving, at most `fuel` times. -/
def F32.lg : Nat → Nat → Nat
  | 0, _ => 0
  | fuel + 1, n => if n ≥ 2 then F32.lg fuel (n / 2) + 1 else 0

/-- The position of the leading bit of `n`: `2^(log2 n) ≤ n < 2^(log2 n + 1)`
for `n > 0`. -/
def F32.log2 (n : Nat) : Nat := F32.lg n n

/-- The fraction `(a / b) * 2^k` as a pair of naturals. -/
def F32.scale (a b : Nat) (k : Int) : Nat × Nat :=
  (a * 2 ^ k.toNat, b * 2 ^ (-k).toNat)

/-- The `float32` nearest to `(-1)^neg * a / b` (for `b > 0`), ties to the even
significand: the rounding of IEEE 754 binary32 that Go uses for conversions
to `float32` and for `float32` division. -/
def F32.round (neg : Bool) (a b : Nat) : F32 :=
  if a = 0 then
    F32.fin neg 0 0
  else
    -- the exponent `e` with `2^e ≤ a / b < 2^(e+1)`
    let e0 : Int := (F32.log2 a : Int) - (F32.log2 b : Int)
    let e : Int := if (F32.scale a b (-e0)).1 < (F32.scale a b (-e0)).2 then e0 - 1 else e0
    -- the unit in the last place is `2^u`; `-149` is the subnormal floor
    let u : Int := max (e - 23) (-149)
    -- `a / b = (n / d) * 2^u`
    let n := (F32.scale a b (-u)).1
    let d := (F32.scale a b (-u)).2
    let q := n / d
    let r := n % d
    let m := if 2 * r < d then q else if d < 2 * r then q + 1 else if q % 2 = 0 then q else q + 1
    if m = 0 then
      F32.fin neg 0 0
    else if m = 2 ^ 24 then
      (if u + 1 + 23 > 127 then F32.inf neg else F32.fin neg (2 ^ 23) (u + 1))
    else
      (if u + 23 > 127 then F32.inf neg else F32.fin neg m u)

/-- The Go conversion `float32(x)` of an integer `x`. -/
def F32.ofInt (x : Int) : F32 := F32.round (decide (x < 0)) x.natAbs 1

/-- The `float32` quotient `x / y`. -/
def F32.div : F32 → F32 → F32
  | F32.nan, _ => F32.nan
  | F32.inf _, F32.nan => F32.nan
  | F32.inf _, F32.inf _ => F32.nan
  | F32.inf s1, F32.fin s2 _ _ => F32.inf (xor s1 s2)
  | F32.fin _ _ _, F32.nan => F32.nan
  | F32.fin s1 _ _, F32.inf s2 => F32.fin (xor s1 s2) 0 0
  | F32.fin s1 m1 e1, F32.fin s2 m2 e2 =>
    if m2 = 0 then
      (if m1 = 0 then F32.nan else F32.inf (xor s1 s2))
    else
      F32.round (xor s1 s2) (F32.scale m1 m2 (e1 - e2)).1 (F32.scale m1 m2 (e1 - e2)).2

/-- The rational value of a finite `float32`. -/
def F32.toRat : F32 → Option ℚ
  | F32.nan => none
  | F32.inf _ => none
  | F32.fin neg m e => some ((if neg then -1 else 1) * (m : ℚ) * (2 : ℚ) ^ e)

/-- Source `Window.SuccessRate` with its `float32` arithmetic:
`float32(succ) / float32(total)`, and `float32(0)` when `total == 0`. -/
def Window.SuccessRateF32 (w : Window) : Option F32 :=
  match w.buckets[w.latest]? with
  | none => none
  | some b =>
    let succ := b.SuccessCount + w.preSuccess
    let fail := b.FailCount + w.preFail
    let timeout := b.TimeoutCount + w.preTimeout
    let total := succ + fail + timeout
    if total = 0 then
      some (F32.ofInt 0)
    else
      some (F32.div (F32.ofInt succ) (F32.ofInt total))

/-- Source `Window.ErrorRate` with its `float32` arithmetic:
`float32(fail+timeout) / float32(total)`, and `float32(0)` when `total == 0`. -/
def Window.ErrorRateF32 (w : Window) : Option F32 :=
  match w.buckets[w.latest]? with
  | none => none
  | some b =>
    let succ := b.SuccessCount + w.preSuccess
    let fail := b.FailCount + w.preFail
    let timeout := b.TimeoutCount + w.preTimeout
    let total := succ + fail + timeout
    if total = 0 then
      some (F32.ofInt 0)
    else
      some (F32.div (F32.ofInt (fail + timeout)) (F32.ofInt total))

/-! ## Sequences of calls on a window -/

/-- One call on a window: a write (`Succeed`, `Fail`, `Timeout`) or one firing
of the ticker (`refresh`). -/
inductive Op where
  | Succeed
  | Fail
  | Timeout
  | refresh
deriving DecidableEq

/-- Apply one call to the window. -/
def Window.step (w : Window) : Op → Option Window
  | Op.Succeed => w.Succeed
  | Op.Fail => w.Fail
  | Op.Timeout => w.Timeout
  | Op.refresh => w.refresh

/-- Apply a sequence of calls, oldest call first; `none` as soon as one faults. -/
def Window.run (w : Window) : List Op → Option Window
  | [] => some w
  | op :: ops => (w.step op).bind (fun w1 => Window.run w1 ops)

/-! ## Reference counts and reference history -/

/-- Spec side: the number of `kind` calls in `ops` that are followed by fewer
than `M` calls of `refresh`. -/
def recentCount (kind : Op) (M : Nat) : List Op → Nat
  | [] => 0
  | op :: ops =>
    (if op = kind ∧ ops.count Op.refresh < M then 1 else 0) + recentCount kind M ops

/-- The counter of a bucket that a write call increments (`0` for `refresh`,
which increments none). -/
def Op.counter : Op → bucket → Int
  | Op.Succeed, b => b.SuccessCount
  | Op.Fail, b => b.FailCount
  | Op.Timeout, b => b.TimeoutCount
  | Op.refresh, _ => 0

/-- Reference history: the events of the current bucket period, followed by
the events of the earlier periods, most recent first. -/
def histStep : bucket × List bucket → Op → bucket × List bucket
  | (c, p), Op.Succeed => (c.Succeed, p)
  | (c, p), Op.Fail => (c.Fail, p)
  | (c, p), Op.Timeout => (c.Timeout, p)
  | (c, p), Op.refresh => ({ success := 0, fail := 0, timeout := 0 }, c :: p)

/-- Reference history of a sequence of calls on a fresh window. -/
def hist (ops : List Op) : bucket × List bucket :=
  ops.foldl histStep ({ success := 0, fail := 0, timeout := 0 }, [])

/-- Sum of one counter over a list of buckets. -/
def sumBy (f : bucket → Int) (l : List bucket) : Int := (l.map f).sum

/-! ## State predicates of the ring -/

/-- The window `w` with `N` retained buckets represents the history `c :: p`:
`p.length` rotations have happened, the slot of each of the `N` most recent
periods holds that period's events, and the carried aggregates are the sums
over the `N - 1` periods before the current one. -/
structure Inv (N : Nat) (w : Window) (c : bucket) (p : List bucket) : Prop where
  len : w.buckets.length = N + 2
  num : w.bucketNum = N
  latest : w.latest = p.length % (N + 2)
  trip : w.firstTrip = decide (p.length < N)
  oldest : w.oldest = if p.length < N then 0 else (p.length + 1 - N) % (N + 2)
  slots : ∀ i b, i < N → (c :: p)[i]? = some b →
    w.buckets[(p.length - i) % (N + 2)]? = some b
  preS : w.preSuccess = sumBy bucket.SuccessCount (p.take (N - 1))
  preF : w.preFail = sumBy bucket.FailCount (p.take (N - 1))
  preT : w.preTimeout = sumBy bucket.TimeoutCount (p.take (N - 1))

/-- State of a window on which only rotations happened: every bucket and every
carried aggregate is zero and both cursors are inside the ring. -/
structure Idle (N : Nat) (w : Window) : Prop where
  buckets : w.buckets = List.replicate (N + 2) { success := 0, fail := 0, timeout := 0 }
  latest : w.latest < N + 2
  oldest : w.oldest < N + 2
  preS : w.preSuccess = 0
  preF : w.preFail = 0
  preT : w.preTimeout = 0

/-- State of a window that never rotated: the cursor is on slot `0`, nothing is
carried forward, and slot `0` holds the numbers of calls made so far. -/
structure Still (N : Nat) (w : Window) (ops : List Op) : Prop where
  len : w.buckets.length = N + 2
  latest : w.latest = 0
  cur : w.buckets[0]? = some
    { success := ops.count Op.Succeed, fail := ops.count Op.Fail, timeout := ops.count Op.Timeout }
  preS : w.preSuccess = 0
  preF : w.preFail = 0
  preT : w.preTimeout = 0

/-- The cursors of a window with `N` retained buckets after `k` rotations.
Warm-up lasts `max N 1` rotations: with `N = 0` the first rotation already ends
it. -/
structure Cursor (N k : Nat) (w : Window) : Prop where
  len : w.buckets.length = N + 2
  num : w.bucketNum = N
  latest : w.latest = k % (N + 2)
  trip : w.firstTrip = decide (k < max N 1)
  oldest : w.oldest = if k < max N 1 then 0 else (k + 1 - max N 1) % (N + 2)

/-- Spec side: the ring distance `(latest - oldest) mod len(buckets)`. -/
def Window.span (w : Window) : Nat :=
  (w.latest + w.buckets.length - w.oldest) % w.buckets.length

/-- Spec side: the sum of one counter over the `span` ring slots that start at
`oldest` and end just before `latest`. -/
def Window.ringSum (f : bucket → Int) (w : Window) : Int :=
  ((List.range w.span).map (fun j =>
    match w.buckets[(w.oldest + j) % w.buckets.length]? with
    | some b => f b
    | none => 0)).sum

/-- Spec side: `w1` differs from `w` at most in the current bucket: the
cursors, the warm-up flag, the carried aggregates, the configuration and every
bucket other than `buckets[latest]` are the same. -/
def Window.sameFrame (w w1 : Window) : Prop :=
  w1.latest = w.latest ∧ w1.oldest = w.oldest ∧ w1.firstTrip = w.firstTrip
    ∧ w1.preSuccess = w.preSuccess ∧ w1.preFail = w.preFail ∧ w1.preTimeout = w.preTimeout
    ∧ w1.bucketNum = w.bucketNum ∧ w1.bucketDuration = w.bucketDuration
    ∧ w1.buckets.length = w.buckets.length
    ∧ ∀ i, i ≠ w.latest → w1.buckets[i]? = w.buckets[i]?

/-- A window in the middle of its life: three retained buckets, the cursor on
slot `1`, three successes and one failure in the current bucket, two timeouts
carried forward from slot `0`. -/
def sampleWindow : Window :=
  { buckets := [{ success := 0, fail := 0, timeout := 2 }, { success := 3, fail := 1, timeout := 0 },
      { success := 0, fail := 0, timeout := 0 }, { success := 0, fail := 0, timeout := 0 },
      { success := 0, fail := 0, timeout := 0 }]
    oldest := 0
    latest := 1
    bucketDuration := 50
    bucketNum := 3
    firstTrip := true
    preSuccess := 0
    preFail := 0
    preTimeout := 2 }

/-! ## The background task: `autoLoad` and `Stop` -/

/-- A window together with the state of its background goroutine: whether
`w.stop` is a made channel (`false` for the nil channel), whether a call of
`Stop()` is waiting in its send `w.stop <- struct{}{}`, whether the ticker is
still running, and whether `autoLoad` is still inside its `for` loop. -/
structure Task where
  window : Window
  stopMade : Bool
  sending : Bool
  ticking : Bool
  looping : Bool
deriving DecidableEq

/-- Source `NewWindowWithOption`, the part about the task: the struct literal
has no entry for `stop`, so `w.stop` is the nil channel; the ticker is created
and `go w.autoLoad()` starts the loop. -/
def NewTask (bucketDuration : Int) (bucketNum : Nat) : Task :=
  { window := NewWindowWithOption bucketDuration bucketNum
    stopMade := false
    sending := false
    ticking := true
    looping := true }

/-- What can happen to a task: a caller enters `Stop()`, or `autoLoad` takes
one of the two cases of its `select`. -/
inductive Event where
  | callStop
  | tick
  | recvStop
deriving DecidableEq

/-- One event on a task; `none` when the event cannot happen in that state.

* `callStop`: source `Window.Stop`, the send `w.stop <- struct{}{}` starts; it
  completes only when `autoLoad` receives from `w.stop`.
* `tick`: source `autoLoad`, `case <-w.ticker.C: w.refresh()`.
* `recvStop`: source `autoLoad`, `case <-w.stop: w.ticker.Stop(); break`.  A
  receive from the nil channel is never ready.  The `break` leaves the
  `select`, not the `for`, so the loop goes on. -/
def Task.fire (t : Task) : Event → Option Task
  | Event.callStop => some { t with sending := true }
  | Event.tick =>
    if t.looping && t.ticking then
      match t.window.refresh with
      | none => none
      | some w => some { t with window := w }
    else none
  | Event.recvStop =>
    if t.looping && t.stopMade && t.sending then
      some { t with sending := false, ticking := false }
    else none

/-- A sequence of events on a task, oldest first. -/
def Task.fireAll (t : Task) : List Event → Option Task
  | [] => some t
  | e :: es => (t.fire e).bind (fun t1 => Task.fireAll t1 es)

/-! ## store_operator.go -/

/-- The three tiers of the read path, named after the fields of `Store`. -/
inductive Tier where
  | localCache
  | remoteCache
  | storage
deriving DecidableEq

/-- Source `Config`; what its two methods answer is a parameter. -/
structure Config (K : Type) where
  IsHotKeyEnable : K → Bool
  IsRedisAutoDegradeEnable : Bool

/-- Source `Storage`; what `Get` and `IsFailOver` answer is a parameter.  The
`interface{}` result of `Get` is an `Option V`, with `none` for `nil`. -/
structure Storage (K P V : Type) where
  Get : K → P → Option V × Bool
  IsFailOver : Bool

/-- Source `Store`. -/
structure Store (K P V : Type) where
  localCache : Storage K P V
  remoteCache : Storage K P V
  storage : Storage K P V
  config : Config K

/-- Source `ReqOption`. -/
structure ReqOption where
  ForceDb : Bool
deriving DecidableEq

/-- Source `Store.Get`, the part that decides which tiers take part: the
values of `localCacheEnable, remoteCacheEnable, remoteStorageEnable` when the
fallthrough starts. -/
def Store.tierEnable {K P V : Type} (s : Store K P V) (uniqKey : K) : Bool × Bool × Bool :=
  -- local cache is off by default
  let localCacheEnable := false
  let remoteCacheEnable := true
  let remoteStorageEnable := true
  -- hot keys go local cache + redis + mysql
  let localCacheEnable := if s.config.IsHotKeyEnable uniqKey then true else localCacheEnable
  -- automatic degrade to the local cache
  let degrade := s.config.IsRedisAutoDegradeEnable && s.localCache.IsFailOver
  let localCacheEnable := if degrade then true else localCacheEnable
  let remoteCacheEnable := if degrade then false else remoteCacheEnable
  (localCacheEnable, remoteCacheEnable, remoteStorageEnable)

/-- Source `Store.Get`.  The second component of the result lists the tiers
whose `Get` was called, in call order. -/
def Store.Get {K P V : Type} (s : Store K P V) (uniqKey : K) (opt : ReqOption) (param : P) :
    (Option V × Bool) × List Tier :=
  if opt.ForceDb then
    (s.storage.Get uniqKey param, [Tier.storage])
  else
    match s.tierEnable uniqKey with
    | (localCacheEnable, remoteCacheEnable, remoteStorageEnable) =>
      if localCacheEnable && (s.localCache.Get uniqKey param).2 then
        (s.localCache.Get uniqKey param, [Tier.localCache])
      else
        let called1 : List Tier := if localCacheEnable then [Tier.localCache] else []
        if remoteCacheEnable && (s.remoteCache.Get uniqKey param).2 then
          (s.remoteCache.Get uniqKey param, called1 ++ [Tier.remoteCache])
        else
          let called2 : List Tier :=
            if remoteCacheEnable then called1 ++ [Tier.remoteCache] else called1
          if remoteStorageEnable then
            (s.storage.Get uniqKey param, called2 ++ [Tier.storage])
          else
            ((none, false), called2)

/-! ## Reference fallthrough and sample stores -/

/-- The answer of one tier. -/
def Store.tierGet {K P V : Type} (s : Store K P V) (uniqKey : K) (param : P) :
    Tier → Option V × Bool
  | Tier.localCache => s.localCache.Get uniqKey param
  | Tier.remoteCache => s.remoteCache.Get uniqKey param
  | Tier.storage => s.storage.Get uniqKey param

/-- Spec side: the enabled tiers in the order local cache, remote cache,
storage. -/
def Store.enabledTiers {K P V : Type} (s : Store K P V) (uniqKey : K) : List Tier :=
  (if (s.tierEnable uniqKey).1 then [Tier.localCache] else [])
    ++ (if (s.tierEnable uniqKey).2.1 then [Tier.remoteCache] else [])
    ++ (if (s.tierEnable uniqKey).2.2 then [Tier.storage] else [])

/-- Spec side: the tiers of a list that are consulted when the list is walked
in order and the walk stops at the first hit. -/
def upToFirstHit (hit : Tier → Bool) : List Tier → List Tier
  | [] => []
  | t :: ts => if hit t then [t] else t :: upToFirstHit hit ts

/-- A store over natural-number keys and values whose configuration and tiers
answer the same for every key. -/
def constStore (hot autoDegrade localFailOver remoteFailOver : Bool)
    (l r st : Option Nat × Bool) : Store Nat Unit Nat :=
  { localCache := { Get := fun _ _ => l, IsFailOver := localFailOver }
    remoteCache := { Get := fun _ _ => r, IsFailOver := remoteFailOver }
    storage := { Get := fun _ _ => st, IsFailOver := false }
    config := { IsHotKeyEnable := fun _ => hot, IsRedisAutoDegradeEnable := autoDegrade } }

/-! ## Arithmetic of the ring cursor -/

theorem wrap_succ (a L : Nat) (hL : 0 < L) :
    (if a % L + 1 ≥ L then a % L + 1 - L else a % L + 1) = (a + 1) % L := by
  have hlt : a % L < L := Nat.mod_lt a hL
  have hmod : (a + 1) % L = (a % L + 1) % L := by
    rw [Nat.add_mod a 1 L, Nat.add_mod (a % L) 1 L, Nat.mod_mod]
  by_cases h : a % L + 1 ≥ L
  · have he : a % L + 1 = L := by omega
    rw [if_pos h, hmod, he, Nat.mod_self, Nat.sub_self]
  · rw [if_neg h, hmod, Nat.mod_eq_of_lt (show a % L + 1 < L by omega)]

theorem slot_ne (a d L : Nat) (hd : 0 < d) (hdL : d < L) : (a + d) % L ≠ a % L := by
  intro h
  have h1 : a + d ≡ a + 0 [MOD L] := by simpa [Nat.ModEq] using h
  have h2 : d ≡ 0 [MOD L] := Nat.ModEq.add_left_cancel' a h1
  have h3 : d % L = 0 := by simpa [Nat.ModEq] using h2
  rw [Nat.mod_eq_of_lt hdL] at h3
  omega

/-! ## Sequences of calls -/

theorem run_append (w : Window) (ops1 ops2 : List Op) :
    w.run (ops1 ++ ops2) = (w.run ops1).bind (fun w1 => w1.run ops2) := by
  induction ops1 generalizing w with
  | nil => simp [Window.run]
  | cons op ops ih =>
    simp only [List.cons_append, Window.run]
    cases h : w.step op with
    | none => simp
    | some w1 => simp [ih]

theorem run_snoc (w : Window) (ops : List Op) (op : Op) :
    w.run (ops ++ [op]) = (w.run ops).bind (fun w1 => w1.step op) := by
  rw [run_append]
  congr 1
  funext w1
  simp only [Window.run]
  cases w1.step op <;> simp

theorem hist_snoc (ops : List Op) (op : Op) :
    hist (ops ++ [op]) = histStep (hist ops) op := by
  simp [hist, List.foldl_append]

theorem recentCount_zero (kind : Op) (ops : List Op) : recentCount kind 0 ops = 0 := by
  induction ops with
  | nil => rfl
  | cons op ops ih => simp [recentCount, ih]

theorem recentCount_snoc (kind : Op) (M : Nat) (ops : List Op) (op : Op) :
    recentCount kind M (ops ++ [op]) =
      recentCount kind (if op = Op.refresh then M - 1 else M) ops
        + (if op = kind ∧ 0 < M then 1 else 0) := by
  induction ops with
  | nil => simp [recentCount]
  | cons a ops ih =>
    have hcount : (ops ++ [op]).count Op.refresh
        = ops.count Op.refresh + (if op = Op.refresh then 1 else 0) := by
      rw [List.count_append]
      by_cases hop : op = Op.refresh
      · subst hop; simp
      · have hne : ¬ (op == Op.refresh) = true := by simpa using hop
        simp [List.count_cons, hop, hne]
    have hunfold : recentCount kind M (a :: ops ++ [op])
        = (if a = kind ∧ (ops ++ [op]).count Op.refresh < M then 1 else 0)
          + recentCount kind M (ops ++ [op]) := rfl
    have hunfold2 : ∀ M2, recentCount kind M2 (a :: ops)
        = (if a = kind ∧ ops.count Op.refresh < M2 then 1 else 0)
          + recentCount kind M2 ops := fun _ => rfl
    rw [hunfold, ih, hunfold2, hcount]
    by_cases hop : op = Op.refresh
    · simp only [hop, if_true]
      have hiff : (ops.count Op.refresh + 1 < M) ↔ (ops.count Op.refresh < M - 1) := by omega
      simp only [hiff]
      omega
    · simp only [if_neg hop, Nat.add_zero]
      omega

/-! ## The reference history against the spec-side count -/

theorem counter_histStep (kind op : Op) (hk : kind ≠ Op.refresh) (hop : op ≠ Op.refresh)
    (c : bucket) (p : List bucket) :
    kind.counter (histStep (c, p) op).1 = kind.counter c + (if op = kind then 1 else 0)
      ∧ (histStep (c, p) op).2 = p := by
  cases kind <;> cases op <;>
    simp [histStep, Op.counter, bucket.Succeed, bucket.Fail, bucket.Timeout,
      bucket.SuccessCount, bucket.FailCount, bucket.TimeoutCount] at hk hop ⊢

theorem counter_zero (kind : Op) :
    kind.counter { success := 0, fail := 0, timeout := 0 } = 0 := by
  cases kind <;> rfl

theorem sumBy_cons (f : bucket → Int) (b : bucket) (l : List bucket) :
    sumBy f (b :: l) = f b + sumBy f l := by
  simp [sumBy]

theorem sumBy_nil (f : bucket → Int) : sumBy f [] = 0 := rfl

theorem sumBy_take_succ (f : bucket → Int) (l : List bucket) (n : Nat) (b : bucket)
    (hb : l[n]? = some b) : sumBy f (l.take (n + 1)) = sumBy f (l.take n) + f b := by
  rw [List.take_succ, hb]
  simp [sumBy]

theorem recentCount_hist (kind : Op) (hk : kind ≠ Op.refresh) (ops : List Op) :
    ∀ M : Nat, (recentCount kind M ops : Int)
      = sumBy kind.counter (((hist ops).1 :: (hist ops).2).take M) := by
  induction ops using List.reverseRecOn with
  | nil =>
    intro M
    cases M with
    | zero => simp [recentCount, sumBy]
    | succ m => simp [recentCount, hist, sumBy, counter_zero]
  | append_singleton ops op ih =>
    intro M
    rw [recentCount_snoc, hist_snoc]
    rcases hpair : hist ops with ⟨c, p⟩
    rw [hpair] at ih
    by_cases hop : op = Op.refresh
    · subst hop
      have hne : ¬ (Op.refresh = kind) := fun h => hk h.symm
      cases M with
      | zero => simp [recentCount_zero, sumBy]
      | succ m =>
        have := ih m
        simp only [if_true, Nat.add_sub_cancel, histStep, List.take_succ_cons, sumBy_cons,
          counter_zero, hne, false_and, if_false] at this ⊢
        simp [this]
    · obtain ⟨h1, h2⟩ := counter_histStep kind op hk hop c p
      rw [if_neg hop]
      cases M with
      | zero => simp [recentCount_zero, sumBy]
      | succ m =>
        have := ih (m + 1)
        simp only [List.take_succ_cons, sumBy_cons] at this ⊢
        rw [h1, h2]
        push_cast
        rw [this]
        by_cases hkk : op = kind
        · simp [hkk]; ring
        · simp [hkk]

/-! ## The ring invariant -/

theorem inv_cur {N : Nat} {w : Window} {c : bucket} {p : List bucket}
    (hN : 1 ≤ N) (h : Inv N w c p) : w.buckets[w.latest]? = some c := by
  rw [h.latest]
  simpa using h.slots 0 c (by omega) (by simp)

theorem inv_init (d : Int) (N : Nat) (hN : 1 ≤ N) :
    Inv N (NewWindowWithOption d N) { success := 0, fail := 0, timeout := 0 } [] := by
  have hN0 : 0 < N := hN
  refine ⟨by simp [NewWindowWithOption], rfl, by simp [NewWindowWithOption], ?_, ?_, ?_,
    by simp [NewWindowWithOption, sumBy], by simp [NewWindowWithOption, sumBy],
    by simp [NewWindowWithOption, sumBy]⟩
  · simp [NewWindowWithOption, hN0]
  · simp [NewWindowWithOption, hN0]
  · intro i b hi hb
    cases i with
    | zero =>
      simp only [List.getElem?_cons_zero, Option.some.injEq] at hb
      subst hb
      simp [NewWindowWithOption]
    | succ j => simp at hb

/-- A write on the current bucket keeps the invariant, with the current period
of the history replaced by the written bucket. -/
theorem inv_write {N : Nat} {w : Window} {c : bucket} {p : List bucket}
    (hN : 1 ≤ N) (h : Inv N w c p) (c1 : bucket) :
    Inv N { w with buckets := w.buckets.set w.latest c1 } c1 p := by
  obtain ⟨hlen, hnum, hlat, htrip, hold, hslots, hS, hF, hT⟩ := h
  refine ⟨by simpa using hlen, hnum, hlat, htrip, hold, ?_, hS, hF, hT⟩
  intro i b hi hb
  have hL : 0 < N + 2 := by omega
  cases i with
  | zero =>
    simp only [List.getElem?_cons_zero, Option.some.injEq] at hb
    subst hb
    have hlt : p.length % (N + 2) < w.buckets.length := by
      rw [hlen]; exact Nat.mod_lt _ hL
    simp only [hlat, Nat.sub_zero]
    rw [List.getElem?_set_self hlt]
  | succ j =>
    have hjlt : j < p.length := by
      simp only [List.getElem?_cons_succ] at hb
      by_contra hcon
      rw [List.getElem?_eq_none (by omega)] at hb
      cases hb
    have hne : w.latest ≠ (p.length - (j + 1)) % (N + 2) := by
      rw [hlat]
      have := slot_ne (p.length - (j + 1)) (j + 1) (N + 2) (by omega) (by omega)
      rwa [show p.length - (j + 1) + (j + 1) = p.length by omega] at this
    rw [List.getElem?_set_ne hne]
    have hb2 : (c :: p)[j + 1]? = some b := by simpa using hb
    exact hslots (j + 1) b hi hb2

theorem getElem?_cons_lt {c b : bucket} {p : List bucket} {i : Nat}
    (hb : (c :: p)[i]? = some b) : i ≤ p.length := by
  by_contra hcon
  rw [List.getElem?_eq_none (by simp; omega)] at hb
  cases hb

/-- One rotation keeps the invariant, with a new empty current period pushed
on the history. -/
theorem inv_refresh {N : Nat} {w : Window} {c : bucket} {p : List bucket}
    (hN : 1 ≤ N) (h : Inv N w c p) :
    ∃ w1, w.refresh = some w1 ∧ Inv N w1 { success := 0, fail := 0, timeout := 0 } (c :: p) := by
  have hcur := inv_cur hN h
  obtain ⟨hlen, hnum, hlat, htrip, hold, hslots, hS, hF, hT⟩ := h
  have hL : 0 < N + 2 := by omega
  have hlat1 : (if w.latest + 1 ≥ w.buckets.length then w.latest + 1 - w.buckets.length
      else w.latest + 1) = (p.length + 1) % (N + 2) := by
    rw [hlen, hlat]; exact wrap_succ _ _ hL
  have htrip1 : (if (w.firstTrip && decide (w.latest + 1 ≥ w.bucketNum)) = true then false
      else w.firstTrip) = decide (p.length + 1 < N) := by
    rw [htrip, hnum, hlat]
    by_cases hk : p.length < N
    · have hmod : p.length % (N + 2) = p.length := Nat.mod_eq_of_lt (by omega)
      rw [hmod]
      by_cases hk1 : p.length + 1 < N
      · have : ¬ (p.length + 1 ≥ N) := by omega
        simp [hk, hk1, this]
      · have : p.length + 1 ≥ N := by omega
        simp [hk, hk1, this]
    · have : ¬ (p.length + 1 < N) := by omega
      simp [hk, this]
  have hlt1 : (p.length + 1) % (N + 2) < w.buckets.length := by
    rw [hlen]; exact Nat.mod_lt _ hL
  have hfresh : w.buckets[(p.length + 1) % (N + 2)]?
      = some (w.buckets.get ⟨(p.length + 1) % (N + 2), hlt1⟩) :=
    List.getElem?_eq_getElem hlt1
  have hslots1 : ∀ i b, i < N → (c :: p)[i]? = some b →
      (w.buckets.set ((p.length + 1) % (N + 2))
        { success := 0, fail := 0, timeout := 0 })[(p.length - i) % (N + 2)]? = some b := by
    intro i b hi hb
    have hile : i ≤ p.length := getElem?_cons_lt hb
    have hne : (p.length + 1) % (N + 2) ≠ (p.length - i) % (N + 2) := by
      have := slot_ne (p.length - i) (i + 1) (N + 2) (by omega) (by omega)
      rwa [show p.length - i + (i + 1) = p.length + 1 by omega] at this
    rw [List.getElem?_set_ne hne]
    exact hslots i b hi hb
  have hslots2 : ∀ i b, i < N →
      (({ success := 0, fail := 0, timeout := 0 } : bucket) :: c :: p)[i]? = some b →
      (w.buckets.set ((p.length + 1) % (N + 2))
        { success := 0, fail := 0, timeout := 0 })[((c :: p).length - i) % (N + 2)]? = some b := by
    intro i b hi hb
    cases i with
    | zero =>
      simp only [List.getElem?_cons_zero, Option.some.injEq] at hb
      subst hb
      simp only [List.length_cons, Nat.sub_zero]
      rw [List.getElem?_set_self hlt1]
    | succ j =>
      have hb2 : (c :: p)[j]? = some b := by simpa using hb
      have := hslots1 j b (by omega) hb2
      simpa using this
  unfold Window.refresh
  simp only [hcur, hlat1, htrip1, hfresh, bucket.Reset]
  by_cases hk1 : p.length + 1 < N
  · have hk : p.length < N := by omega
    have htake : ∀ f, sumBy f ((c :: p).take (N - 1)) = sumBy f (p.take (N - 1)) + f c := by
      intro f
      obtain ⟨m, rfl⟩ : ∃ m, N = m + 2 := ⟨N - 2, by omega⟩
      simp only [Nat.add_sub_cancel, show m + 2 - 1 = m + 1 by omega, List.take_succ_cons,
        sumBy_cons]
      rw [List.take_of_length_le (by omega), List.take_of_length_le (by omega)]
      ring
    simp only [hk1, decide_True, Bool.not_true, Bool.false_eq_true, if_false]
    refine ⟨_, rfl, ?_⟩
    refine ⟨by simpa using hlen, hnum, by simp, by simp [hk1], ?_, hslots2, ?_, ?_, ?_⟩
    · simp [hold, hk, hk1]
    · simp only [htake, hS]
    · simp only [htake, hF]
    · simp only [htake, hT]
  · have hNk : N - 1 ≤ p.length := by omega
    have hidx : w.oldest = (p.length - (N - 1)) % (N + 2) := by
      rw [hold]
      by_cases hk : p.length < N
      · have : p.length - (N - 1) = 0 := by omega
        simp [hk, this]
      · have : p.length + 1 - N = p.length - (N - 1) := by omega
        simp [hk, this]
    have hlt2 : N - 1 < (c :: p).length := by simp; omega
    have hget : (c :: p)[N - 1]? = some ((c :: p).get ⟨N - 1, hlt2⟩) :=
      List.getElem?_eq_getElem hlt2
    have hold1 := hslots1 (N - 1) _ (by omega) hget
    rw [← hidx] at hold1
    have htake : ∀ f, sumBy f ((c :: p).take (N - 1))
        = sumBy f (p.take (N - 1)) + f c - f ((c :: p).get ⟨N - 1, hlt2⟩) := by
      intro f
      have h1 := sumBy_take_succ f (c :: p) (N - 1) _ hget
      rw [show N - 1 + 1 = (N - 1) + 1 by rfl, List.take_succ_cons, sumBy_cons] at h1
      linarith
    have hold2 : (if w.oldest + 1 ≥ N + 2 then w.oldest + 1 - (N + 2) else w.oldest + 1)
        = (p.length + 1 + 1 - N) % (N + 2) := by
      rw [hidx, wrap_succ _ _ hL]
      congr 1
      omega
    simp only [hk1, decide_False, Bool.not_false, if_true, hold1, List.length_set, hlen, hold2]
    refine ⟨_, rfl, ?_⟩
    refine ⟨by simpa using hlen, hnum, by simp, by simp [hk1], ?_, hslots2, ?_, ?_, ?_⟩
    · have hk2 : ¬ (p.length + 1 < N) := hk1
      simp [hk2]
    · simp only [htake, hS]
    · simp only [htake, hF]
    · simp only [htake, hT]

theorem inv_step {N : Nat} {w : Window} {c : bucket} {p : List bucket}
    (hN : 1 ≤ N) (h : Inv N w c p) (op : Op) :
    ∃ w1, w.step op = some w1 ∧ Inv N w1 (histStep (c, p) op).1 (histStep (c, p) op).2 := by
  have hcur := inv_cur hN h
  cases op with
  | Succeed => exact ⟨_, by simp [Window.step, Window.Succeed, hcur, histStep], inv_write hN h _⟩
  | Fail => exact ⟨_, by simp [Window.step, Window.Fail, hcur, histStep], inv_write hN h _⟩
  | Timeout => exact ⟨_, by simp [Window.step, Window.Timeout, hcur, histStep], inv_write hN h _⟩
  | refresh => exact inv_refresh hN h

/-- Every sequence of calls on a fresh window with `N ≥ 1` runs without a
fault and ends in a state that represents the reference history. -/
theorem run_inv (d : Int) (N : Nat) (hN : 1 ≤ N) (ops : List Op) :
    ∃ w, (NewWindowWithOption d N).run ops = some w ∧ Inv N w (hist ops).1 (hist ops).2 := by
  induction ops using List.reverseRecOn with
  | nil => exact ⟨_, rfl, inv_init d N hN⟩
  | append_singleton ops op ih =>
    obtain ⟨w, hrun, hinv⟩ := ih
    obtain ⟨w1, hstep, hinv1⟩ := inv_step hN hinv op
    refine ⟨w1, ?_, ?_⟩
    · rw [run_snoc, hrun]; exact hstep
    · rw [hist_snoc]; exact hinv1

theorem inv_counts {N : Nat} {w : Window} {c : bucket} {p : List bucket}
    (hN : 1 ≤ N) (h : Inv N w c p) :
    w.SuccessCount = some (sumBy bucket.SuccessCount ((c :: p).take N))
      ∧ w.FailCount = some (sumBy bucket.FailCount ((c :: p).take N))
      ∧ w.TimeoutCount = some (sumBy bucket.TimeoutCount ((c :: p).take N)) := by
  have hcur := inv_cur hN h
  obtain ⟨m, rfl⟩ : ∃ m, N = m + 1 := ⟨N - 1, by omega⟩
  simp only [Window.SuccessCount, Window.FailCount, Window.TimeoutCount, hcur,
    List.take_succ_cons, sumBy_cons, h.preS, h.preF, h.preT, Nat.add_sub_cancel]
  exact ⟨trivial, trivial, trivial⟩

/-- The counts read from the window after any sequence of calls are the
numbers of calls of each kind followed by fewer than `N` rotations. -/
theorem run_counts (d : Int) (N : Nat) (hN : 1 ≤ N) (ops : List Op) :
    ∃ w, (NewWindowWithOption d N).run ops = some w
      ∧ w.SuccessCount = some (recentCount Op.Succeed N ops : Int)
      ∧ w.FailCount = some (recentCount Op.Fail N ops : Int)
      ∧ w.TimeoutCount = some (recentCount Op.Timeout N ops : Int) := by
  obtain ⟨w, hrun, hinv⟩ := run_inv d N hN ops
  obtain ⟨hs, hf, ht⟩ := inv_counts hN hinv
  refine ⟨w, hrun, ?_, ?_, ?_⟩
  · rw [hs, recentCount_hist Op.Succeed (by decide) ops N]; rfl
  · rw [hf, recentCount_hist Op.Fail (by decide) ops N]; rfl
  · rw [ht, recentCount_hist Op.Timeout (by decide) ops N]; rfl

theorem recentCount_le (kind : Op) (M1 M2 : Nat) (hM : M1 ≤ M2) (ops : List Op) :
    recentCount kind M1 ops ≤ recentCount kind M2 ops := by
  induction ops with
  | nil => exact Nat.le_refl _
  | cons op ops ih =>
    simp only [recentCount]
    apply Nat.add_le_add _ ih
    by_cases h1 : op = kind ∧ ops.count Op.refresh < M1
    · have h2 : op = kind ∧ ops.count Op.refresh < M2 := ⟨h1.1, by omega⟩
      simp [h1, h2]
    · rw [if_neg h1]; exact Nat.zero_le _

theorem recentCount_replicate_refresh (kind : Op) (hk : kind ≠ Op.refresh) (M n : Nat) :
    recentCount kind M (List.replicate n Op.refresh) = 0 := by
  induction n with
  | zero => rfl
  | succ n ih =>
    have hne : ¬ (Op.refresh = kind) := fun h => hk h.symm
    simp [List.replicate_succ, recentCount, ih, hne]

/-! ## Windows that never received a write, and windows that never rotated -/

theorem idle_init (d : Int) (N : Nat) : Idle N (NewWindowWithOption d N) :=
  ⟨rfl, by simp [NewWindowWithOption], by simp [NewWindowWithOption], rfl, rfl, rfl⟩

theorem idle_refresh {N : Nat} {w : Window} (h : Idle N w) :
    ∃ w1, w.refresh = some w1 ∧ Idle N w1 := by
  obtain ⟨hb, hl, ho, hS, hF, hT⟩ := h
  have hlen : w.buckets.length = N + 2 := by rw [hb]; simp
  have hl1 : (if w.latest + 1 ≥ N + 2 then w.latest + 1 - (N + 2) else w.latest + 1) < N + 2 := by
    split <;> omega
  have ho1 : (if w.oldest + 1 ≥ N + 2 then w.oldest + 1 - (N + 2) else w.oldest + 1) < N + 2 := by
    split <;> omega
  unfold Window.refresh
  simp only [hlen]
  simp only [hb, List.getElem?_replicate_of_lt hl, List.getElem?_replicate_of_lt hl1,
    List.getElem?_replicate_of_lt ho, bucket.Reset, List.set_replicate_self, List.length_replicate,
    hS, hF, hT, bucket.SuccessCount, bucket.FailCount, bucket.TimeoutCount]
  generalize (if (w.firstTrip && decide (w.latest + 1 ≥ w.bucketNum)) = true then false
    else w.firstTrip) = ft
  cases ft with
  | false => exact ⟨_, rfl, ⟨rfl, hl1, ho1, by simp, by simp, by simp⟩⟩
  | true => exact ⟨_, rfl, ⟨rfl, hl1, ho, by simp, by simp, by simp⟩⟩

theorem idle_counts {N : Nat} {w : Window} (h : Idle N w) :
    w.SuccessCount = some 0 ∧ w.FailCount = some 0 ∧ w.TimeoutCount = some 0 := by
  obtain ⟨hb, hl, -, hS, hF, hT⟩ := h
  simp [Window.SuccessCount, Window.FailCount, Window.TimeoutCount, hb,
    List.getElem?_replicate_of_lt hl, hS, hF, hT, bucket.SuccessCount, bucket.FailCount,
    bucket.TimeoutCount]

theorem run_idle (d : Int) (N K : Nat) :
    ∃ w, (NewWindowWithOption d N).run (List.replicate K Op.refresh) = some w ∧ Idle N w := by
  induction K with
  | zero => exact ⟨_, rfl, idle_init d N⟩
  | succ K ih =>
    obtain ⟨w, hrun, hidle⟩ := ih
    obtain ⟨w1, hstep, hidle1⟩ := idle_refresh hidle
    refine ⟨w1, ?_, hidle1⟩
    rw [List.replicate_succ', run_snoc, hrun]
    exact hstep

theorem run_still (d : Int) (N : Nat) (ops : List Op) (hops : ∀ op ∈ ops, op ≠ Op.refresh) :
    ∃ w, (NewWindowWithOption d N).run ops = some w ∧ Still N w ops := by
  induction ops using List.reverseRecOn with
  | nil =>
    refine ⟨_, rfl, ⟨by simp [NewWindowWithOption], rfl, ?_, rfl, rfl, rfl⟩⟩
    simp [NewWindowWithOption]
  | append_singleton ops op ih =>
    obtain ⟨w, hrun, hlen, hlat, hcur, hS, hF, hT⟩ :=
      ih (fun o ho => hops o (List.mem_append_left _ ho))
    have hop : op ≠ Op.refresh := hops op (by simp)
    have h0 : 0 < w.buckets.length := by omega
    rw [run_snoc, hrun]
    cases op with
    | refresh => exact absurd rfl hop
    | Succeed =>
      refine ⟨{ w with buckets := w.buckets.set w.latest (bucket.Succeed
          { success := ops.count Op.Succeed, fail := ops.count Op.Fail,
            timeout := ops.count Op.Timeout }) }, ?_, ⟨by simpa using hlen, hlat, ?_, hS, hF, hT⟩⟩
      · simp [Window.step, Window.Succeed, hlat, hcur]
      · simp [hlat, List.getElem?_set_self h0, bucket.Succeed, List.count_append]
    | Fail =>
      refine ⟨{ w with buckets := w.buckets.set w.latest (bucket.Fail
          { success := ops.count Op.Succeed, fail := ops.count Op.Fail,
            timeout := ops.count Op.Timeout }) }, ?_, ⟨by simpa using hlen, hlat, ?_, hS, hF, hT⟩⟩
      · simp [Window.step, Window.Fail, hlat, hcur]
      · simp [hlat, List.getElem?_set_self h0, bucket.Fail, List.count_append]
    | Timeout =>
      refine ⟨{ w with buckets := w.buckets.set w.latest (bucket.Timeout
          { success := ops.count Op.Succeed, fail := ops.count Op.Fail,
            timeout := ops.count Op.Timeout }) }, ?_, ⟨by simpa using hlen, hlat, ?_, hS, hF, hT⟩⟩
      · simp [Window.step, Window.Timeout, hlat, hcur]
      · simp [hlat, List.getElem?_set_self h0, bucket.Timeout, List.count_append]

/-! ## Claims about the rolling window -/

/-- C1 (bounded span).  For every retained bucket count `N ≥ 1`, on a fresh
window one `Succeed()` followed by exactly `N + 1` calls of `refresh()` gives
`SuccessCount() == 0`, and one `Succeed()` followed by exactly `N - 1` calls of
`refresh()` gives `SuccessCount() == 1`; neither run faults. -/
theorem C1_bounded_span (d : Int) (N : Nat) (hN : 1 ≤ N) :
    ((NewWindowWithOption d N).run (Op.Succeed :: List.replicate (N + 1) Op.refresh)).bind
        Window.SuccessCount = some 0
      ∧ ((NewWindowWithOption d N).run (Op.Succeed :: List.replicate (N - 1) Op.refresh)).bind
        Window.SuccessCount = some 1 := by
  have hrec : ∀ m, recentCount Op.Succeed N (Op.Succeed :: List.replicate m Op.refresh)
      = if m < N then 1 else 0 := by
    intro m
    simp [recentCount, recentCount_replicate_refresh]
  constructor
  · obtain ⟨w, hrun, hs, -, -⟩ :=
      run_counts d N hN (Op.Succeed :: List.replicate (N + 1) Op.refresh)
    rw [hrun, Option.some_bind, hs, hrec, if_neg (by omega)]
    rfl
  · obtain ⟨w, hrun, hs, -, -⟩ :=
      run_counts d N hN (Op.Succeed :: List.replicate (N - 1) Op.refresh)
    rw [hrun, Option.some_bind, hs, hrec, if_pos (by omega)]
    rfl

/-- Witness of C1 at `N = 3`. -/
theorem C1_bounded_span_witness :
    1 ≤ 3
      ∧ ((NewWindowWithOption 50 3).run (Op.Succeed :: List.replicate (3 + 1) Op.refresh)).bind
        Window.SuccessCount = some 0
      ∧ ((NewWindowWithOption 50 3).run (Op.Succeed :: List.replicate (3 - 1) Op.refresh)).bind
        Window.SuccessCount = some 1 :=
  ⟨by decide, C1_bounded_span 50 3 (by decide)⟩

/-- C2 as stated fails.  With `N = 1`, a success followed by exactly one
rotation (so by at most `N` rotations) is not included: `SuccessCount()` is `0`,
below the number of successes followed by at most `N` rotations, which is `1`. -/
theorem C2_counterexample :
    ¬ (∃ c : Int,
        ((NewWindowWithOption 50 1).run [Op.Succeed, Op.refresh]).bind Window.SuccessCount
            = some c
          ∧ (recentCount Op.Succeed (1 + 1) [Op.Succeed, Op.refresh] : Int) ≤ c
          ∧ c ≤ (recentCount Op.Succeed (1 + 2) [Op.Succeed, Op.refresh] : Int)) := by
  rintro ⟨c, hc, hlow, -⟩
  have h0 : ((NewWindowWithOption 50 1).run [Op.Succeed, Op.refresh]).bind Window.SuccessCount
      = some 0 := by decide
  rw [h0] at hc
  have hc0 : c = 0 := by cases hc; rfl
  subst hc0
  revert hlow
  decide

/-- C2 (amended).  For every `N ≥ 1` and every sequence of calls on a fresh
window, the run does not fault, every success followed by fewer than `N`
rotations is included in `SuccessCount()`, and no success followed by `N + 2` or
more rotations is included: the count lies between the number of successes
followed by fewer than `N` rotations and the number followed by fewer than
`N + 2` rotations. -/
theorem C2_reporting_span (d : Int) (N : Nat) (hN : 1 ≤ N) (ops : List Op) :
    ∃ w c, (NewWindowWithOption d N).run ops = some w
      ∧ w.SuccessCount = some c
      ∧ (recentCount Op.Succeed N ops : Int) ≤ c
      ∧ c ≤ (recentCount Op.Succeed (N + 2) ops : Int) := by
  obtain ⟨w, hrun, hs, -, -⟩ := run_counts d N hN ops
  refine ⟨w, _, hrun, hs, le_refl _, ?_⟩
  exact_mod_cast recentCount_le Op.Succeed N (N + 2) (by omega) ops

/-- Witness of the amended C2 at `N = 2`. -/
theorem C2_reporting_span_witness :
    1 ≤ 2 ∧ ∃ w c, (NewWindowWithOption 50 2).run
        [Op.Succeed, Op.refresh, Op.Succeed, Op.refresh, Op.Succeed] = some w
      ∧ w.SuccessCount = some c
      ∧ (recentCount Op.Succeed 2
          [Op.Succeed, Op.refresh, Op.Succeed, Op.refresh, Op.Succeed] : Int) ≤ c
      ∧ c ≤ (recentCount Op.Succeed (2 + 2)
          [Op.Succeed, Op.refresh, Op.Succeed, Op.refresh, Op.Succeed] : Int) :=
  ⟨by decide, C2_reporting_span 50 2 (by decide) _⟩

/-- C3 (no lost update).  For every `n` and `m`, on a fresh window any
interleaving of `n` `Succeed()` calls and `m` `Fail()` calls with no `refresh()`
in between runs without a fault and yields `SuccessCount() == n`,
`FailCount() == m` and `TimeoutCount() == 0`. -/
theorem C3_no_lost_update (d : Int) (N n m : Nat) (ops : List Op)
    (hops : ∀ op ∈ ops, op = Op.Succeed ∨ op = Op.Fail)
    (hn : ops.count Op.Succeed = n) (hm : ops.count Op.Fail = m) :
    ∃ w, (NewWindowWithOption d N).run ops = some w
      ∧ w.SuccessCount = some (n : Int)
      ∧ w.FailCount = some (m : Int)
      ∧ w.TimeoutCount = some 0 := by
  have hnr : ∀ op ∈ ops, op ≠ Op.refresh := by
    intro op hop
    rcases hops op hop with h | h <;> simp [h]
  have hnt : ops.count Op.Timeout = 0 := by
    rw [List.count_eq_zero]
    intro hmem
    rcases hops _ hmem with h | h <;> cases h
  obtain ⟨w, hrun, -, hlat, hcur, hS, hF, hT⟩ := run_still d N ops hnr
  refine ⟨w, hrun, ?_, ?_, ?_⟩
  · simp [Window.SuccessCount, hlat, hcur, hS, bucket.SuccessCount, hn]
  · simp [Window.FailCount, hlat, hcur, hF, bucket.FailCount, hm]
  · simp [Window.TimeoutCount, hlat, hcur, hT, bucket.TimeoutCount, hnt]

/-- Witness of C3: two `Succeed()` and one `Fail()`, interleaved. -/
theorem C3_no_lost_update_witness :
    ∃ w, (NewWindowWithOption 50 10).run [Op.Succeed, Op.Fail, Op.Succeed] = some w
      ∧ w.SuccessCount = some ((2 : Nat) : Int)
      ∧ w.FailCount = some ((1 : Nat) : Int)
      ∧ w.TimeoutCount = some 0 :=
  C3_no_lost_update 50 10 2 1 [Op.Succeed, Op.Fail, Op.Succeed] (by decide) (by decide)
    (by decide)

/-- C4 (idle rotations).  For every `N ≥ 0` and every `K ≥ 0`, `K` calls of
`refresh()` on a fresh window with no write run without a fault (every bucket
index used is in range) and leave `SuccessCount()`, `FailCount()` and
`TimeoutCount()` all equal to `0`. -/
theorem C4_idle_rotations (d : Int) (N K : Nat) :
    ∃ w, (NewWindowWithOption d N).run (List.replicate K Op.refresh) = some w
      ∧ w.latest < w.buckets.length ∧ w.oldest < w.buckets.length
      ∧ w.SuccessCount = some 0 ∧ w.FailCount = some 0 ∧ w.TimeoutCount = some 0 := by
  obtain ⟨w, hrun, hidle⟩ := run_idle d N K
  have hlen : w.buckets.length = N + 2 := by rw [hidle.buckets]; simp
  exact ⟨w, hrun, by rw [hlen]; exact hidle.latest, by rw [hlen]; exact hidle.oldest,
    idle_counts hidle⟩

/-! ## Claims about the tiered store -/

/-- The degrade override of `Store.Get` is keyed on the probe of the local
cache: with `ForceDb` false, auto-degrade enabled and `localCache.IsFailOver()`
true, the local cache is queried first and the remote cache is never queried. -/
theorem Store.Get_degrade_on_local_probe {K P V : Type} (s : Store K P V) (uniqKey : K)
    (opt : ReqOption) (param : P) (hforce : opt.ForceDb = false)
    (hauto : s.config.IsRedisAutoDegradeEnable = true) (hfail : s.localCache.IsFailOver = true) :
    (s.Get uniqKey opt param).2[0]? = some Tier.localCache
      ∧ Tier.remoteCache ∉ (s.Get uniqKey opt param).2 := by
  rcases hl : s.localCache.Get uniqKey param with ⟨vl, bl⟩
  cases bl <;> cases hh : s.config.IsHotKeyEnable uniqKey <;>
    simp [Store.Get, Store.tierEnable, hforce, hauto, hfail, hl, hh]

/-- C5 (code defect).  Auto-degrade is enabled, the remote cache's
`IsFailOver()` reports true, the local cache's reports false and the key is not
hot: `Store.Get` does not query the local cache and does query the remote
cache, whose value it returns. -/
theorem C5_degrade_probe_divergence :
    (constStore false true false true (some 1, true) (some 2, true) (some 3, true)).Get
        0 { ForceDb := false } ()
      = ((some 2, true), [Tier.remoteCache]) := by
  decide

/-- C6 (ForceDb precedence).  When `opt.ForceDb` is true, `Store.Get` returns
exactly what `storage.Get(key, params)` returns, calls only the storage tier,
and so queries neither the local cache nor the remote cache. -/
theorem C6_force_db {K P V : Type} (s : Store K P V) (uniqKey : K) (opt : ReqOption)
    (param : P) (hforce : opt.ForceDb = true) :
    (s.Get uniqKey opt param).1 = s.storage.Get uniqKey param
      ∧ (s.Get uniqKey opt param).2 = [Tier.storage]
      ∧ Tier.localCache ∉ (s.Get uniqKey opt param).2
      ∧ Tier.remoteCache ∉ (s.Get uniqKey opt param).2 := by
  simp [Store.Get, hforce]

/-- Witness of C6: a hot key, a hit available in both caches, `ForceDb` set. -/
theorem C6_force_db_witness :
    ({ ForceDb := true } : ReqOption).ForceDb = true
      ∧ ((constStore true true true true (some 1, true) (some 2, true) (some 3, true)).Get
          0 { ForceDb := true } ()).1 = (some 3, true)
      ∧ ((constStore true true true true (some 1, true) (some 2, true) (some 3, true)).Get
          0 { ForceDb := true } ()).2 = [Tier.storage]
      ∧ Tier.localCache ∉ ((constStore true true true true (some 1, true) (some 2, true)
          (some 3, true)).Get 0 { ForceDb := true } ()).2
      ∧ Tier.remoteCache ∉ ((constStore true true true true (some 1, true) (some 2, true)
          (some 3, true)).Get 0 { ForceDb := true } ()).2 :=
  ⟨rfl, C6_force_db (constStore true true true true (some 1, true) (some 2, true)
    (some 3, true)) 0 { ForceDb := true } () rfl⟩

/-- C7 (first-hit fallthrough).  When `ForceDb` is false, the tiers `Store.Get`
calls are the enabled tiers, in the order local cache, remote cache, storage,
up to and including the first one that hits (no tier after the first hit is
called); it returns `found = true` iff some enabled tier hits; and when an
enabled tier hits, the result is that of the first enabled tier that hits. -/
theorem C7_first_hit_fallthrough {K P V : Type} (s : Store K P V) (uniqKey : K)
    (opt : ReqOption) (param : P) (hforce : opt.ForceDb = false) :
    (s.Get uniqKey opt param).2
        = upToFirstHit (fun t => (s.tierGet uniqKey param t).2) (s.enabledTiers uniqKey)
      ∧ ((s.Get uniqKey opt param).1.2 = true
          ↔ ∃ t ∈ s.enabledTiers uniqKey, (s.tierGet uniqKey param t).2 = true)
      ∧ (∀ t, (s.enabledTiers uniqKey).find? (fun t => (s.tierGet uniqKey param t).2) = some t →
          (s.Get uniqKey opt param).1 = s.tierGet uniqKey param t) := by
  rcases hl : s.localCache.Get uniqKey param with ⟨vl, bl⟩
  rcases hr : s.remoteCache.Get uniqKey param with ⟨vr, br⟩
  rcases hs : s.storage.Get uniqKey param with ⟨vs, bs⟩
  rcases he : s.tierEnable uniqKey with ⟨le, re, se⟩
  have hse : se = true := by
    have h3 : (s.tierEnable uniqKey).2.2 = true := rfl
    rw [he] at h3
    exact h3
  subst hse
  simp only [Store.Get, Store.enabledTiers, he, hforce, hl, hr, hs]
  cases le <;> cases re <;> cases bl <;> cases br <;> cases bs <;>
    simp [Store.tierGet, upToFirstHit, hl, hr, hs]

/-- Witness of C7: a hot key, a miss in the local cache, a hit in the remote
cache. -/
theorem C7_first_hit_fallthrough_witness :
    ({ ForceDb := false } : ReqOption).ForceDb = false
      ∧ ((constStore true false false false (none, false) (some 2, true) (some 3, true)).Get
          0 { ForceDb := false } ()).2 = [Tier.localCache, Tier.remoteCache]
      ∧ ((constStore true false false false (none, false) (some 2, true) (some 3, true)).Get
          0 { ForceDb := false } ()).1 = (some 2, true) := by
  have h := C7_first_hit_fallthrough
    (constStore true false false false (none, false) (some 2, true) (some 3, true))
    0 { ForceDb := false } () rfl
  exact ⟨rfl, h.1.trans (by decide), h.2.2 Tier.remoteCache (by decide)⟩

/-- C8 (hot key without auto-degrade).  For a key flagged hot, with auto-degrade
disabled and `ForceDb` false, whatever the `IsFailOver()` of any tier reports,
the remote cache stays enabled, the first tier `Store.Get` calls is the local
cache, and if the local cache misses the second tier it calls is the remote
cache. -/
theorem C8_hot_key_no_degrade {K P V : Type} (s : Store K P V) (uniqKey : K)
    (opt : ReqOption) (param : P) (hforce : opt.ForceDb = false)
    (hhot : s.config.IsHotKeyEnable uniqKey = true)
    (hauto : s.config.IsRedisAutoDegradeEnable = false) :
    (s.tierEnable uniqKey).2.1 = true
      ∧ (s.Get uniqKey opt param).2[0]? = some Tier.localCache
      ∧ ((s.localCache.Get uniqKey param).2 = false →
          (s.Get uniqKey opt param).2[1]? = some Tier.remoteCache) := by
  rcases hl : s.localCache.Get uniqKey param with ⟨vl, bl⟩
  rcases hr : s.remoteCache.Get uniqKey param with ⟨vr, br⟩
  cases bl <;> cases br <;>
    simp [Store.Get, Store.tierEnable, hforce, hhot, hauto, hl, hr]

/-- Witness of C8: a hot key, auto-degrade off, every probe reporting
fail-over, a miss in the local cache. -/
theorem C8_hot_key_no_degrade_witness :
    ((constStore true false true true (none, false) (some 2, true) (some 3, true)).tierEnable
        0).2.1 = true
      ∧ ((constStore true false true true (none, false) (some 2, true) (some 3, true)).Get
          0 { ForceDb := false } ()).2[0]? = some Tier.localCache
      ∧ ((constStore true false true true (none, false) (some 2, true) (some 3, true)).Get
          0 { ForceDb := false } ()).2[1]? = some Tier.remoteCache :=
  ⟨(C8_hot_key_no_degrade (constStore true false true true (none, false) (some 2, true)
      (some 3, true)) 0 { ForceDb := false } () rfl rfl rfl).1,
    (C8_hot_key_no_degrade (constStore true false true true (none, false) (some 2, true)
      (some 3, true)) 0 { ForceDb := false } () rfl rfl rfl).2.1,
    (C8_hot_key_no_degrade (constStore true false true true (none, false) (some 2, true)
      (some 3, true)) 0 { ForceDb := false } () rfl rfl rfl).2.2 rfl⟩

/-- C9 (baseline path).  For a key that is not hot, with auto-degrade disabled
and `ForceDb` false, `Store.Get` never queries the local cache, and if the
remote cache returns `(v, true)` then `Store.Get` returns `(v, true)` without
invoking storage. -/
theorem C9_baseline_path {K P V : Type} (s : Store K P V) (uniqKey : K)
    (opt : ReqOption) (param : P) (hforce : opt.ForceDb = false)
    (hhot : s.config.IsHotKeyEnable uniqKey = false)
    (hauto : s.config.IsRedisAutoDegradeEnable = false) :
    Tier.localCache ∉ (s.Get uniqKey opt param).2
      ∧ (∀ v, s.remoteCache.Get uniqKey param = (v, true) →
          (s.Get uniqKey opt param).1 = (v, true)
            ∧ Tier.storage ∉ (s.Get uniqKey opt param).2) := by
  rcases hr : s.remoteCache.Get uniqKey param with ⟨vr, br⟩
  cases br <;> simp [Store.Get, Store.tierEnable, hforce, hhot, hauto, hr]

/-- Witness of C9: the key is not hot, the local cache would hit but is
disabled, the remote cache returns `(some 2, true)`. -/
theorem C9_baseline_path_witness :
    Tier.localCache ∉ ((constStore false false true true (some 1, true) (some 2, true)
        (some 3, true)).Get 0 { ForceDb := false } ()).2
      ∧ ((constStore false false true true (some 1, true) (some 2, true) (some 3, true)).Get
          0 { ForceDb := false } ()).1 = (some 2, true)
      ∧ Tier.storage ∉ ((constStore false false true true (some 1, true) (some 2, true)
          (some 3, true)).Get 0 { ForceDb := false } ()).2 :=
  ⟨(C9_baseline_path (constStore false false true true (some 1, true) (some 2, true)
      (some 3, true)) 0 { ForceDb := false } () rfl rfl rfl).1,
    (C9_baseline_path (constStore false false true true (some 1, true) (some 2, true)
      (some 3, true)) 0 { ForceDb := false } () rfl rfl rfl).2 (some 2) rfl⟩

/-- C10 as stated fails.  When the storage tier answers a miss together with a
non-nil value, `Store.Get` returns `found = false` together with that non-nil
value. -/
theorem C10_counterexample :
    ((constStore false false false false (none, false) (none, false) (some 7, false)).Get
        0 { ForceDb := false } ()).1.2 = false
      ∧ ((constStore false false false false (none, false) (none, false) (some 7, false)).Get
        0 { ForceDb := false } ()).1.1 ≠ none := by
  decide

/-- C10 (amended).  Whenever `Store.Get` returns `found = false`, the pair it
returns is exactly the pair `storage.Get` returned for that key; so the value is
nil whenever the storage tier returns nil with its miss. -/
theorem C10_not_found_shape {K P V : Type} (s : Store K P V) (uniqKey : K)
    (opt : ReqOption) (param : P) (hmiss : (s.Get uniqKey opt param).1.2 = false) :
    (s.Get uniqKey opt param).1 = s.storage.Get uniqKey param
      ∧ ((s.storage.Get uniqKey param).1 = none → (s.Get uniqKey opt param).1.1 = none) := by
  have hres : (s.Get uniqKey opt param).1 = s.storage.Get uniqKey param := by
    rcases hl : s.localCache.Get uniqKey param with ⟨vl, bl⟩
    rcases hr : s.remoteCache.Get uniqKey param with ⟨vr, br⟩
    rcases he : s.tierEnable uniqKey with ⟨le, re, se⟩
    have hse : se = true := by
      have h3 : (s.tierEnable uniqKey).2.2 = true := rfl
      rw [he] at h3
      exact h3
    subst hse
    cases hf : opt.ForceDb
    · simp only [Store.Get, he, hf, hl, hr] at hmiss ⊢
      cases le <;> cases re <;> cases bl <;> cases br <;> simp_all
    · simp [Store.Get, hf]
  exact ⟨hres, fun hnil => by rw [hres]; exact hnil⟩

/-- Witness of the amended C10: every tier misses and the storage tier returns
nil with its miss. -/
theorem C10_not_found_shape_witness :
    ((constStore true false false false (none, false) (none, false) (none, false)).Get
        0 { ForceDb := false } ()).1.2 = false
      ∧ ((constStore true false false false (none, false) (none, false) (none, false)).Get
        0 { ForceDb := false } ()).1.1 = none :=
  ⟨by decide, (C10_not_found_shape (constStore true false false false (none, false)
    (none, false) (none, false)) 0 { ForceDb := false } () (by decide)).2 rfl⟩

/-! ## The cursors, for every retained bucket count -/

theorem cursor_lt {N k : Nat} {w : Window} (h : Cursor N k w) :
    w.latest < w.buckets.length ∧ w.oldest < w.buckets.length := by
  have hL : 0 < N + 2 := by omega
  rw [h.len, h.latest, h.oldest]
  refine ⟨Nat.mod_lt _ hL, ?_⟩
  split
  · exact hL
  · exact Nat.mod_lt _ hL

theorem cursor_init (d : Int) (N : Nat) : Cursor N 0 (NewWindowWithOption d N) := by
  have hM : 0 < max N 1 := by omega
  exact ⟨by simp [NewWindowWithOption], rfl, by simp [NewWindowWithOption],
    by simp [NewWindowWithOption], by simp [NewWindowWithOption]⟩

/-- A rotation of a window whose cursors are inside the ring does not fault; the
new cursors and the zeroed slot are as the source computes them. -/
theorem cursor_refresh {N k : Nat} {w : Window} (h : Cursor N k w) :
    ∃ w1, w.refresh = some w1 ∧ Cursor N (k + 1) w1
      ∧ w1.buckets[w1.latest]? = some { success := 0, fail := 0, timeout := 0 }
      ∧ (w1.firstTrip = false → w1.latest ≠ w.oldest) := by
  obtain ⟨hl, ho⟩ := cursor_lt h
  obtain ⟨hlen, hnum, hlat, htrip, hold⟩ := h
  have hL : 0 < N + 2 := by omega
  have hlat1 : (if w.latest + 1 ≥ w.buckets.length then w.latest + 1 - w.buckets.length
      else w.latest + 1) = (k + 1) % (N + 2) := by
    rw [hlen, hlat]; exact wrap_succ _ _ hL
  have htrip1 : (if (w.firstTrip && decide (w.latest + 1 ≥ w.bucketNum)) = true then false
      else w.firstTrip) = decide (k + 1 < max N 1) := by
    rw [htrip, hnum, hlat]
    by_cases hk : k < max N 1
    · have hmod : k % (N + 2) = k := Nat.mod_eq_of_lt (by omega)
      rw [hmod]
      by_cases hk1 : k + 1 < max N 1
      · have : ¬ (k + 1 ≥ N) := by omega
        simp [hk, hk1, this]
      · have : k + 1 ≥ N := by omega
        simp [hk, hk1, this]
    · have : ¬ (k + 1 < max N 1) := by omega
      simp [hk, this]
  have hlt1 : (k + 1) % (N + 2) < w.buckets.length := by
    rw [hlen]; exact Nat.mod_lt _ hL
  have hfresh : w.buckets[(k + 1) % (N + 2)]?
      = some (w.buckets.get ⟨(k + 1) % (N + 2), hlt1⟩) :=
    List.getElem?_eq_getElem hlt1
  have hzero : (w.buckets.set ((k + 1) % (N + 2))
      { success := 0, fail := 0, timeout := 0 })[(k + 1) % (N + 2)]?
      = some { success := 0, fail := 0, timeout := 0 } :=
    List.getElem?_set_self hlt1
  unfold Window.refresh
  simp only [List.getElem?_eq_getElem hl, hlat1, htrip1, hfresh, bucket.Reset]
  by_cases hk1 : k + 1 < max N 1
  · have hk : k < max N 1 := by omega
    simp only [hk1, decide_True, Bool.not_true, Bool.false_eq_true, if_false]
    refine ⟨_, rfl, ⟨by simpa using hlen, hnum, by simp, by simp [hk1], ?_⟩, hzero, ?_⟩
    · simp [hold, hk, hk1]
    · intro hcon
      simp at hcon
  · have hidx : w.oldest = (k + 1 - max N 1) % (N + 2) := by
      rw [hold]
      by_cases hk : k < max N 1
      · have : k + 1 - max N 1 = 0 := by omega
        simp [hk, this]
      · simp [hk]
    have ho1 : w.oldest < (w.buckets.set ((k + 1) % (N + 2))
        { success := 0, fail := 0, timeout := 0 }).length := by simpa using ho
    have hold2 : (if w.oldest + 1 ≥ N + 2 then w.oldest + 1 - (N + 2) else w.oldest + 1)
        = (k + 1 + 1 - max N 1) % (N + 2) := by
      rw [hidx, wrap_succ _ _ hL]
      congr 1
      omega
    have hne : (k + 1) % (N + 2) ≠ w.oldest := by
      rw [hidx]
      have := slot_ne (k + 1 - max N 1) (max N 1) (N + 2) (by omega) (by omega)
      rwa [show k + 1 - max N 1 + max N 1 = k + 1 by omega] at this
    simp only [hk1, decide_False, Bool.not_false, if_true, List.getElem?_eq_getElem ho1,
      List.length_set, hlen, hold2]
    refine ⟨_, rfl, ⟨by simpa using hlen, hnum, by simp, by simp [hk1], ?_⟩, hzero, ?_⟩
    · have hk2 : ¬ (k + 1 < max N 1) := hk1
      simp [hk2]
    · intro _
      exact hne

theorem cursor_write {N k : Nat} {w : Window} (h : Cursor N k w) (b : bucket) :
    Cursor N k { w with buckets := w.buckets.set w.latest b } :=
  ⟨by simpa using h.len, h.num, h.latest, h.trip, h.oldest⟩

theorem cursor_step {N k : Nat} {w : Window} (h : Cursor N k w) (op : Op) :
    ∃ w1, w.step op = some w1 ∧ Cursor N (k + if op = Op.refresh then 1 else 0) w1 := by
  obtain ⟨hl, -⟩ := cursor_lt h
  cases op with
  | Succeed =>
    exact ⟨_, by simp [Window.step, Window.Succeed, List.getElem?_eq_getElem hl],
      cursor_write h (w.buckets[w.latest]).Succeed⟩
  | Fail =>
    exact ⟨_, by simp [Window.step, Window.Fail, List.getElem?_eq_getElem hl],
      cursor_write h (w.buckets[w.latest]).Fail⟩
  | Timeout =>
    exact ⟨_, by simp [Window.step, Window.Timeout, List.getElem?_eq_getElem hl],
      cursor_write h (w.buckets[w.latest]).Timeout⟩
  | refresh =>
    obtain ⟨w1, h1, h2, -, -⟩ := cursor_refresh h
    exact ⟨w1, h1, h2⟩

/-- Every sequence of calls on a fresh window, for every `N`, runs without a
fault and leaves the cursors where the number of rotations puts them. -/
theorem run_cursor (d : Int) (N : Nat) (ops : List Op) :
    ∃ w, (NewWindowWithOption d N).run ops = some w ∧ Cursor N (ops.count Op.refresh) w := by
  induction ops using List.reverseRecOn with
  | nil => exact ⟨_, rfl, cursor_init d N⟩
  | append_singleton ops op ih =>
    obtain ⟨w, hrun, hcur⟩ := ih
    obtain ⟨w1, hstep, hcur1⟩ := cursor_step hcur op
    refine ⟨w1, ?_, ?_⟩
    · rw [run_snoc, hrun]; exact hstep
    · have hcount : (ops ++ [op]).count Op.refresh
          = ops.count Op.refresh + if op = Op.refresh then 1 else 0 := by
        rw [List.count_append]
        by_cases hop : op = Op.refresh
        · subst hop; simp
        · have hne : ¬ (op == Op.refresh) = true := by simpa using hop
          simp [List.count_cons, hop, hne]
      rw [hcount]; exact hcur1

/-! ## Claims about rates, construction and frames -/

/-- The two rates read from a window whose cursor is inside the ring, in terms
of its three counts. -/
theorem rates_of_lt (w : Window) (hl : w.latest < w.buckets.length) :
    ∃ s f t : Int, w.SuccessCount = some s ∧ w.FailCount = some f ∧ w.TimeoutCount = some t
      ∧ w.SuccessRate = some (if s + f + t = 0 then 0 else (s : ℚ) / ((s + f + t : Int) : ℚ))
      ∧ w.ErrorRate
          = some (if s + f + t = 0 then 0 else ((f + t : Int) : ℚ) / ((s + f + t : Int) : ℚ)) := by
  refine ⟨(w.buckets[w.latest]).SuccessCount + w.preSuccess,
    (w.buckets[w.latest]).FailCount + w.preFail,
    (w.buckets[w.latest]).TimeoutCount + w.preTimeout, ?_, ?_, ?_, ?_, ?_⟩ <;>
    simp only [Window.SuccessCount, Window.FailCount, Window.TimeoutCount, Window.SuccessRate,
      Window.ErrorRate, List.getElem?_eq_getElem hl]
  · split <;> rfl
  · split <;> rfl

/-- C12 (rates sum to one).  In every state reachable from a fresh window, for
every `N`, both rates are defined; `SuccessRate() + ErrorRate() == 1` when the
total count is greater than `0`, and both rates are `0` when the total is `0`. -/
theorem C12_rates_sum (d : Int) (N : Nat) (ops : List Op) :
    ∃ w, (NewWindowWithOption d N).run ops = some w
      ∧ ∃ (s f t : Int) (sr er : ℚ), w.SuccessCount = some s ∧ w.FailCount = some f
        ∧ w.TimeoutCount = some t ∧ w.SuccessRate = some sr ∧ w.ErrorRate = some er
        ∧ (0 < s + f + t → sr + er = 1)
        ∧ (s + f + t = 0 → sr = 0 ∧ er = 0) := by
  obtain ⟨w, hrun, hcur⟩ := run_cursor d N ops
  obtain ⟨hl, -⟩ := cursor_lt hcur
  obtain ⟨s, f, t, hs, hf, ht, hsr, her⟩ := rates_of_lt w hl
  refine ⟨w, hrun, s, f, t, _, _, hs, hf, ht, hsr, her, ?_, ?_⟩
  · intro hpos
    have hne : s + f + t ≠ 0 := by omega
    have hq : ((s + f + t : Int) : ℚ) ≠ 0 := by exact_mod_cast hne
    rw [if_neg hne, if_neg hne, ← add_div]
    rw [div_eq_one_iff_eq hq]
    push_cast
    ring
  · intro hz
    simp [hz]

/-- C14 (construction).  `NewWindow()` is `NewWindowWithOption(50ms, 100)`, and
for every `N`, `NewWindowWithOption(d, N)` is a ring of exactly `N + 2` zeroed
buckets with `latest == oldest == 0`, the warm-up flag set, the carried
aggregates `0`, and so all three counts and both rates equal to `0`. -/
theorem C14_construction (d : Int) (N : Nat) :
    NewWindow = NewWindowWithOption (50 * 1000000) 100
      ∧ (NewWindowWithOption d N).buckets.length = N + 2
      ∧ (∀ b ∈ (NewWindowWithOption d N).buckets, b = { success := 0, fail := 0, timeout := 0 })
      ∧ (NewWindowWithOption d N).latest = 0 ∧ (NewWindowWithOption d N).oldest = 0
      ∧ (NewWindowWithOption d N).firstTrip = true
      ∧ (NewWindowWithOption d N).bucketDuration = d ∧ (NewWindowWithOption d N).bucketNum = N
      ∧ (NewWindowWithOption d N).preSuccess = 0 ∧ (NewWindowWithOption d N).preFail = 0
      ∧ (NewWindowWithOption d N).preTimeout = 0
      ∧ (NewWindowWithOption d N).SuccessCount = some 0
      ∧ (NewWindowWithOption d N).FailCount = some 0
      ∧ (NewWindowWithOption d N).TimeoutCount = some 0
      ∧ (NewWindowWithOption d N).SuccessRate = some 0
      ∧ (NewWindowWithOption d N).ErrorRate = some 0 := by
  refine ⟨rfl, by simp [NewWindowWithOption], ?_, rfl, rfl, rfl, rfl, rfl, rfl, rfl, rfl,
    ?_, ?_, ?_, ?_, ?_⟩
  · intro b hb
    exact List.eq_of_mem_replicate hb
  all_goals
    simp [NewWindowWithOption, Window.SuccessCount, Window.FailCount, Window.TimeoutCount,
      Window.SuccessRate, Window.ErrorRate, bucket.SuccessCount, bucket.FailCount,
      bucket.TimeoutCount]

/-- C15 (pad).  For every `N` and every state reachable from a fresh window, a
`refresh()` does not fault, the slot it resets is the new `latest`, and whenever
that same `refresh()` subtracts the `oldest` slot (the warm-up flag is off
after its update) the reset slot is not the subtracted slot. -/
theorem C15_pad (d : Int) (N : Nat) (ops : List Op) :
    ∃ w w1, (NewWindowWithOption d N).run ops = some w ∧ w.refresh = some w1
      ∧ w1.buckets[w1.latest]? = some { success := 0, fail := 0, timeout := 0 }
      ∧ (w1.firstTrip = false → w1.latest ≠ w.oldest) := by
  obtain ⟨w, hrun, hcur⟩ := run_cursor d N ops
  obtain ⟨w1, hre, -, hz, hne⟩ := cursor_refresh hcur
  exact ⟨w, w1, hrun, hre, hz, hne⟩

/-- C19 (index safety).  For every `N`, in every state reached from
`NewWindowWithOption(d, N)` by any sequence of calls (none of which faults),
`latest < N + 2` and `oldest < N + 2` with `len(buckets) == N + 2`, so
`buckets[latest]` and `buckets[oldest]` are in range and the reads return. -/
theorem C19_index_safety (d : Int) (N : Nat) (ops : List Op) :
    ∃ w, (NewWindowWithOption d N).run ops = some w
      ∧ w.buckets.length = N + 2 ∧ w.latest < N + 2 ∧ w.oldest < N + 2
      ∧ (∃ b, w.buckets[w.latest]? = some b) ∧ (∃ b, w.buckets[w.oldest]? = some b)
      ∧ (∃ s f t, w.SuccessCount = some s ∧ w.FailCount = some f ∧ w.TimeoutCount = some t)
      ∧ (∃ sr er, w.SuccessRate = some sr ∧ w.ErrorRate = some er) := by
  obtain ⟨w, hrun, hcur⟩ := run_cursor d N ops
  obtain ⟨hl, ho⟩ := cursor_lt hcur
  obtain ⟨s, f, t, hs, hf, ht, hsr, her⟩ := rates_of_lt w hl
  have hlen := hcur.len
  exact ⟨w, hrun, hlen, by omega, by omega, ⟨_, List.getElem?_eq_getElem hl⟩,
    ⟨_, List.getElem?_eq_getElem ho⟩, ⟨s, f, t, hs, hf, ht⟩, ⟨_, _, hsr, her⟩⟩

/-- A write that replaces the current bucket leaves the rest of the window as
it was. -/
theorem sameFrame_set (w : Window) (b : bucket) :
    w.sameFrame { w with buckets := w.buckets.set w.latest b } := by
  refine ⟨rfl, rfl, rfl, rfl, rfl, rfl, rfl, rfl, by simp, ?_⟩
  intro i hi
  exact List.getElem?_set_ne (Ne.symm hi)

/-- C20 (write frame).  In every window state whose cursor is inside the ring,
`Succeed()` returns, increases `SuccessCount()` by exactly `1` and changes
nothing else: `FailCount()`, `TimeoutCount()`, the cursors, the warm-up flag,
the carried aggregates and every bucket other than the current one are
unchanged; symmetrically for `Fail()` and `Timeout()`. -/
theorem C20_write_frame (w : Window) (hl : w.latest < w.buckets.length) :
    (∃ w1 s, w.Succeed = some w1 ∧ w.SuccessCount = some s ∧ w1.SuccessCount = some (s + 1)
        ∧ w1.FailCount = w.FailCount ∧ w1.TimeoutCount = w.TimeoutCount ∧ w.sameFrame w1)
      ∧ (∃ w1 f, w.Fail = some w1 ∧ w.FailCount = some f ∧ w1.FailCount = some (f + 1)
        ∧ w1.SuccessCount = w.SuccessCount ∧ w1.TimeoutCount = w.TimeoutCount ∧ w.sameFrame w1)
      ∧ (∃ w1 t, w.Timeout = some w1 ∧ w.TimeoutCount = some t
        ∧ w1.TimeoutCount = some (t + 1)
        ∧ w1.SuccessCount = w.SuccessCount ∧ w1.FailCount = w.FailCount ∧ w.sameFrame w1) := by
  have hget := List.getElem?_eq_getElem hl
  refine ⟨⟨{ w with buckets := w.buckets.set w.latest (w.buckets[w.latest]).Succeed },
      (w.buckets[w.latest]).SuccessCount + w.preSuccess,
      ?_, ?_, ?_, ?_, ?_, sameFrame_set w _⟩,
    ⟨{ w with buckets := w.buckets.set w.latest (w.buckets[w.latest]).Fail },
      (w.buckets[w.latest]).FailCount + w.preFail,
      ?_, ?_, ?_, ?_, ?_, sameFrame_set w _⟩,
    ⟨{ w with buckets := w.buckets.set w.latest (w.buckets[w.latest]).Timeout },
      (w.buckets[w.latest]).TimeoutCount + w.preTimeout,
      ?_, ?_, ?_, ?_, ?_, sameFrame_set w _⟩⟩
  all_goals
    simp only [Window.Succeed, Window.Fail, Window.Timeout, Window.SuccessCount,
      Window.FailCount, Window.TimeoutCount, hget, List.getElem?_set_self hl, bucket.Succeed,
      bucket.Fail, bucket.Timeout, bucket.SuccessCount, bucket.FailCount, bucket.TimeoutCount]
  all_goals
    first
      | rfl
      | (congr 1; ring)

/-- Witness of C20 on a window holding 3 successes, 1 failure and 2 timeouts. -/
theorem C20_write_frame_witness :
    sampleWindow.latest < sampleWindow.buckets.length
      ∧ (∃ w1 s, sampleWindow.Succeed = some w1 ∧ sampleWindow.SuccessCount = some s
        ∧ w1.SuccessCount = some (s + 1) ∧ w1.FailCount = sampleWindow.FailCount
        ∧ w1.TimeoutCount = sampleWindow.TimeoutCount ∧ sampleWindow.sameFrame w1) :=
  ⟨by decide, (C20_write_frame sampleWindow (by decide)).1⟩

/-! ## Warm-up, the exact window and the carried aggregates -/

theorem hist_length (ops : List Op) : (hist ops).2.length = ops.count Op.refresh := by
  induction ops using List.reverseRecOn with
  | nil => rfl
  | append_singleton ops op ih =>
    rw [hist_snoc, List.count_append]
    rcases hpair : hist ops with ⟨c, p⟩
    rw [hpair] at ih
    cases op <;> simp [histStep, ih, List.count_cons]

theorem recentCount_eq_count (kind : Op) (M : Nat) (ops : List Op)
    (h : ops.count Op.refresh < M) : recentCount kind M ops = ops.count kind := by
  induction ops with
  | nil => rfl
  | cons a t ih =>
    have hle : t.count Op.refresh ≤ (a :: t).count Op.refresh := by
      rw [List.count_cons]; omega
    have ht : t.count Op.refresh < M := by omega
    have hunfold : recentCount kind M (a :: t)
        = (if a = kind ∧ t.count Op.refresh < M then 1 else 0) + recentCount kind M t := rfl
    rw [hunfold, ih ht, List.count_cons]
    by_cases hak : a = kind
    · simp [hak, ht]; omega
    · have hne : ¬ (a == kind) = true := by simpa using hak
      simp [hak, hne]

theorem hist_nonneg (ops : List Op) :
    ∀ b ∈ (hist ops).1 :: (hist ops).2,
      0 ≤ b.SuccessCount ∧ 0 ≤ b.FailCount ∧ 0 ≤ b.TimeoutCount := by
  induction ops using List.reverseRecOn with
  | nil =>
    intro b hb
    simp only [hist, List.foldl_nil, List.mem_singleton] at hb
    subst hb
    exact ⟨le_refl _, le_refl _, le_refl _⟩
  | append_singleton ops op ih =>
    rw [hist_snoc]
    rcases hpair : hist ops with ⟨c, p⟩
    rw [hpair] at ih
    have hc := ih c (by simp)
    have hp : ∀ b ∈ p, 0 ≤ b.SuccessCount ∧ 0 ≤ b.FailCount ∧ 0 ≤ b.TimeoutCount :=
      fun b hb => ih b (by simp [hb])
    simp only [bucket.SuccessCount, bucket.FailCount, bucket.TimeoutCount] at hc hp ⊢
    intro b hb
    cases op <;>
      simp only [histStep, List.mem_cons, bucket.Succeed, bucket.Fail, bucket.Timeout] at hb
    · rcases hb with rfl | hb
      · exact ⟨by simp only []; omega, hc.2.1, hc.2.2⟩
      · exact hp b hb
    · rcases hb with rfl | hb
      · exact ⟨hc.1, by simp only []; omega, hc.2.2⟩
      · exact hp b hb
    · rcases hb with rfl | hb
      · exact ⟨hc.1, hc.2.1, by simp only []; omega⟩
      · exact hp b hb
    · rcases hb with rfl | rfl | hb
      · exact ⟨le_refl _, le_refl _, le_refl _⟩
      · exact hc
      · exact hp b hb

theorem sumBy_nonneg (f : bucket → Int) (l : List bucket) (h : ∀ b ∈ l, 0 ≤ f b) :
    0 ≤ sumBy f l := by
  induction l with
  | nil => exact le_refl _
  | cons a t ih =>
    rw [sumBy_cons]
    have h1 := h a (by simp)
    have h2 := ih (fun b hb => h b (by simp [hb]))
    omega

theorem ring_dist (a D L : Nat) (hD : D < L) : ((a + D) % L + L - a % L) % L = D := by
  have hL : 0 < L := by omega
  have ho : a % L < L := Nat.mod_lt a hL
  rw [← Nat.mod_add_mod a L D]
  generalize a % L = o at ho
  by_cases hlt : o + D < L
  · rw [Nat.mod_eq_of_lt hlt, show o + D + L - o = D + L by omega, Nat.add_mod_right,
      Nat.mod_eq_of_lt hD]
  · have h1 : (o + D) % L = o + D - L := by
      rw [Nat.mod_eq_sub_mod (show o + D ≥ L by omega)]
      exact Nat.mod_eq_of_lt (by omega)
    rw [h1, show o + D - L + L - o = D by omega, Nat.mod_eq_of_lt hD]

theorem sum_range_rev (f : bucket → Int) (q : List bucket) (g : Nat → Int)
    (hg : ∀ j b, j < q.length → q[q.length - 1 - j]? = some b → g j = f b) :
    ((List.range q.length).map g).sum = sumBy f q := by
  induction q generalizing g with
  | nil => rfl
  | cons a t ih =>
    rw [List.length_cons, List.range_succ, List.map_append, List.sum_append, sumBy_cons]
    have hlast : g t.length = f a := by
      apply hg t.length a (by simp)
      simp
    have hrest : ((List.range t.length).map g).sum = sumBy f t := by
      apply ih
      intro j b hj hb
      apply hg j b (by simp; omega)
      have hidx : (a :: t).length - 1 - j = (t.length - 1 - j) + 1 := by
        simp only [List.length_cons]; omega
      rw [hidx, List.getElem?_cons_succ]
      exact hb
    simp only [List.map_cons, List.map_nil, List.sum_cons, List.sum_nil, hlast, hrest]
    ring

/-- Under the ring invariant the carried aggregates are the sums over the ring
slots from `oldest` up to just before `latest`, whose number is the number of
past periods still retained. -/
theorem inv_ringSum {N : Nat} {w : Window} {c : bucket} {p : List bucket}
    (hN : 1 ≤ N) (h : Inv N w c p) :
    w.span = (p.take (N - 1)).length
      ∧ ∀ f, w.ringSum f = sumBy f (p.take (N - 1)) := by
  obtain ⟨hlen, hnum, hlat, htrip, hold, hslots, hS, hF, hT⟩ := h
  have hDle : (p.take (N - 1)).length ≤ N - 1 := by
    rw [List.length_take]; exact Nat.min_le_left _ _
  have hDk : (p.take (N - 1)).length ≤ p.length := by
    rw [List.length_take]; exact Nat.min_le_right _ _
  have holdest : w.oldest = (p.length - (p.take (N - 1)).length) % (N + 2) := by
    rw [hold, List.length_take]
    by_cases hk : p.length < N
    · have : p.length - min (N - 1) p.length = 0 := by omega
      simp [hk, this]
    · have : p.length - min (N - 1) p.length = p.length + 1 - N := by omega
      simp [hk, this]
  have hlatest : w.latest
      = (p.length - (p.take (N - 1)).length + (p.take (N - 1)).length) % (N + 2) := by
    rw [hlat]; congr 1; omega
  have hspan : w.span = (p.take (N - 1)).length := by
    unfold Window.span
    rw [hlen, hlatest, holdest]
    exact ring_dist _ _ _ (by omega)
  refine ⟨hspan, fun f => ?_⟩
  unfold Window.ringSum
  rw [hspan]
  apply sum_range_rev
  intro j b hj hb
  have hpb : p[(p.take (N - 1)).length - 1 - j]? = some b := by
    rw [List.getElem?_take] at hb
    split at hb
    · exact hb
    · cases hb
  have hcb : (c :: p)[(p.take (N - 1)).length - j]? = some b := by
    rw [show (p.take (N - 1)).length - j = ((p.take (N - 1)).length - 1 - j) + 1 by omega,
      List.getElem?_cons_succ]
    exact hpb
  have hslot := hslots ((p.take (N - 1)).length - j) b (by omega) hcb
  have hidx : (w.oldest + j) % w.buckets.length
      = (p.length - ((p.take (N - 1)).length - j)) % (N + 2) := by
    rw [hlen, holdest, Nat.mod_add_mod]
    congr 1
    omega
  simp only [hidx, hslot]

/-- C16 (warm-up).  For every `N ≥ 1` and every sequence of calls on a fresh
window containing `k` calls of `refresh()`, the run does not fault and the
warm-up flag is true iff `k < N`; while `k < N` the `oldest` cursor is `0`, the
carried aggregates are the sums over all past periods (nothing was subtracted),
and the three counts are the total numbers of `Succeed()`, `Fail()` and
`Timeout()` calls made since creation. -/
theorem C16_warm_up (d : Int) (N : Nat) (hN : 1 ≤ N) (ops : List Op) :
    ∃ w, (NewWindowWithOption d N).run ops = some w
      ∧ (w.firstTrip = true ↔ ops.count Op.refresh < N)
      ∧ (ops.count Op.refresh < N →
          w.oldest = 0
          ∧ w.preSuccess = sumBy bucket.SuccessCount (hist ops).2
          ∧ w.preFail = sumBy bucket.FailCount (hist ops).2
          ∧ w.preTimeout = sumBy bucket.TimeoutCount (hist ops).2
          ∧ w.SuccessCount = some (ops.count Op.Succeed : Int)
          ∧ w.FailCount = some (ops.count Op.Fail : Int)
          ∧ w.TimeoutCount = some (ops.count Op.Timeout : Int)) := by
  obtain ⟨w, hrun, hinv⟩ := run_inv d N hN ops
  obtain ⟨hs, hf, ht⟩ := inv_counts hN hinv
  have hlenp := hist_length ops
  refine ⟨w, hrun, ?_, ?_⟩
  · rw [hinv.trip, hlenp]; simp
  · intro hk
    have htake : (hist ops).2.take (N - 1) = (hist ops).2 :=
      List.take_of_length_le (by omega)
    refine ⟨?_, ?_, ?_, ?_, ?_, ?_, ?_⟩
    · rw [hinv.oldest, hlenp, if_pos hk]
    · rw [hinv.preS, htake]
    · rw [hinv.preF, htake]
    · rw [hinv.preT, htake]
    · rw [hs, ← recentCount_eq_count Op.Succeed N ops hk,
        recentCount_hist Op.Succeed (by decide) ops N]; rfl
    · rw [hf, ← recentCount_eq_count Op.Fail N ops hk,
        recentCount_hist Op.Fail (by decide) ops N]; rfl
    · rw [ht, ← recentCount_eq_count Op.Timeout N ops hk,
        recentCount_hist Op.Timeout (by decide) ops N]; rfl

/-- Witness of C16 at `N = 3`, two rotations into the warm-up. -/
theorem C16_warm_up_witness :
    1 ≤ 3 ∧ ∃ w, (NewWindowWithOption 50 3).run
        [Op.Succeed, Op.refresh, Op.Fail, Op.Succeed, Op.refresh, Op.Timeout] = some w
      ∧ w.firstTrip = true ∧ w.oldest = 0
      ∧ w.SuccessCount = some 2 ∧ w.FailCount = some 1 ∧ w.TimeoutCount = some 1 := by
  obtain ⟨w, hrun, htrip, hrest⟩ := C16_warm_up 50 3 (by decide)
    [Op.Succeed, Op.refresh, Op.Fail, Op.Succeed, Op.refresh, Op.Timeout]
  have hk : List.count Op.refresh
      [Op.Succeed, Op.refresh, Op.Fail, Op.Succeed, Op.refresh, Op.Timeout] < 3 := by decide
  obtain ⟨ho, -, -, -, hs, hf, ht⟩ := hrest hk
  exact ⟨by decide, w, hrun, htrip.2 hk, ho, hs, hf, ht⟩

/-- C17 (exact window).  For every `N ≥ 1` and every finite sequence of
`Succeed`/`Fail`/`Timeout`/`refresh` calls on a fresh window, the run does not
fault and `SuccessCount()` is the number of `Succeed()` calls followed by fewer
than `N` calls of `refresh()`, likewise `FailCount()` and `TimeoutCount()`;
these are the sums over the current period and the `N - 1` periods before it
of the reference history. -/
theorem C17_exact_window (d : Int) (N : Nat) (hN : 1 ≤ N) (ops : List Op) :
    ∃ w, (NewWindowWithOption d N).run ops = some w
      ∧ w.SuccessCount = some (recentCount Op.Succeed N ops : Int)
      ∧ w.FailCount = some (recentCount Op.Fail N ops : Int)
      ∧ w.TimeoutCount = some (recentCount Op.Timeout N ops : Int)
      ∧ w.SuccessCount
          = some (sumBy bucket.SuccessCount (((hist ops).1 :: (hist ops).2).take N))
      ∧ w.FailCount = some (sumBy bucket.FailCount (((hist ops).1 :: (hist ops).2).take N))
      ∧ w.TimeoutCount
          = some (sumBy bucket.TimeoutCount (((hist ops).1 :: (hist ops).2).take N)) := by
  obtain ⟨w, hrun, hinv⟩ := run_inv d N hN ops
  obtain ⟨hs, hf, ht⟩ := inv_counts hN hinv
  refine ⟨w, hrun, ?_, ?_, ?_, hs, hf, ht⟩
  · rw [hs, recentCount_hist Op.Succeed (by decide) ops N]; rfl
  · rw [hf, recentCount_hist Op.Fail (by decide) ops N]; rfl
  · rw [ht, recentCount_hist Op.Timeout (by decide) ops N]; rfl

/-- Witness of C17 at `N = 2`: of three successes, the first is followed by two
rotations and is dropped. -/
theorem C17_exact_window_witness :
    1 ≤ 2 ∧ ∃ w, (NewWindowWithOption 50 2).run
        [Op.Succeed, Op.refresh, Op.Succeed, Op.Fail, Op.refresh, Op.Succeed] = some w
      ∧ w.SuccessCount = some 2 ∧ w.FailCount = some 1 ∧ w.TimeoutCount = some 0 := by
  obtain ⟨w, hrun, hs, hf, ht, -⟩ := C17_exact_window 50 2 (by decide)
    [Op.Succeed, Op.refresh, Op.Succeed, Op.Fail, Op.refresh, Op.Succeed]
  exact ⟨by decide, w, hrun, hs, hf, ht⟩

/-- C18 (carried-forward invariant).  For every `N ≥ 1`, in every state
reachable from a fresh window, `preSuccess`, `preFail` and `preTimeout` are the
sums of the corresponding counters over the `(latest - oldest) mod (N + 2)`
ring slots that start at `oldest` and end just before `latest`; that distance
is `N - 1` once the warm-up has ended; and the carried aggregates and the three
counts are never negative. -/
theorem C18_carried_forward (d : Int) (N : Nat) (hN : 1 ≤ N) (ops : List Op) :
    ∃ w, (NewWindowWithOption d N).run ops = some w
      ∧ w.span = (w.latest + (N + 2) - w.oldest) % (N + 2)
      ∧ w.preSuccess = w.ringSum bucket.SuccessCount
      ∧ w.preFail = w.ringSum bucket.FailCount
      ∧ w.preTimeout = w.ringSum bucket.TimeoutCount
      ∧ (w.firstTrip = false → w.span = N - 1)
      ∧ 0 ≤ w.preSuccess ∧ 0 ≤ w.preFail ∧ 0 ≤ w.preTimeout
      ∧ ∃ s f t, w.SuccessCount = some s ∧ w.FailCount = some f ∧ w.TimeoutCount = some t
        ∧ 0 ≤ s ∧ 0 ≤ f ∧ 0 ≤ t := by
  obtain ⟨w, hrun, hinv⟩ := run_inv d N hN ops
  obtain ⟨hspan, hsum⟩ := inv_ringSum hN hinv
  obtain ⟨hs, hf, ht⟩ := inv_counts hN hinv
  have hnn := hist_nonneg ops
  have hnnp : ∀ b ∈ (hist ops).2.take (N - 1),
      0 ≤ b.SuccessCount ∧ 0 ≤ b.FailCount ∧ 0 ≤ b.TimeoutCount :=
    fun b hb => hnn b (List.mem_cons_of_mem _ (List.mem_of_mem_take hb))
  have hnnh : ∀ b ∈ ((hist ops).1 :: (hist ops).2).take N,
      0 ≤ b.SuccessCount ∧ 0 ≤ b.FailCount ∧ 0 ≤ b.TimeoutCount :=
    fun b hb => hnn b (List.mem_of_mem_take hb)
  refine ⟨w, hrun, by simp [Window.span, hinv.len], ?_, ?_, ?_, ?_, ?_, ?_, ?_,
    _, _, _, hs, hf, ht, ?_, ?_, ?_⟩
  · rw [hsum, hinv.preS]
  · rw [hsum, hinv.preF]
  · rw [hsum, hinv.preT]
  · intro htrip
    have hk : ¬ ((hist ops).2.length < N) := by
      have := hinv.trip
      rw [htrip] at this
      simpa using this.symm
    rw [hspan, List.length_take]
    omega
  · rw [hinv.preS]; exact sumBy_nonneg _ _ (fun b hb => (hnnp b hb).1)
  · rw [hinv.preF]; exact sumBy_nonneg _ _ (fun b hb => (hnnp b hb).2.1)
  · rw [hinv.preT]; exact sumBy_nonneg _ _ (fun b hb => (hnnp b hb).2.2)
  · exact sumBy_nonneg _ _ (fun b hb => (hnnh b hb).1)
  · exact sumBy_nonneg _ _ (fun b hb => (hnnh b hb).2.1)
  · exact sumBy_nonneg _ _ (fun b hb => (hnnh b hb).2.2)

/-- Witness of C18 at `N = 2`, after the warm-up. -/
theorem C18_carried_forward_witness :
    1 ≤ 2 ∧ ∃ w, (NewWindowWithOption 50 2).run
        [Op.Succeed, Op.refresh, Op.Succeed, Op.Fail, Op.refresh, Op.Succeed] = some w
      ∧ w.preSuccess = w.ringSum bucket.SuccessCount
      ∧ w.preFail = w.ringSum bucket.FailCount
      ∧ w.preTimeout = w.ringSum bucket.TimeoutCount
      ∧ 0 ≤ w.preSuccess ∧ 0 ≤ w.preFail ∧ 0 ≤ w.preTimeout := by
  obtain ⟨w, hrun, -, hS, hF, hT, -, h1, h2, h3, -⟩ := C18_carried_forward 50 2 (by decide)
    [Op.Succeed, Op.refresh, Op.Succeed, Op.Fail, Op.refresh, Op.Succeed]
  exact ⟨by decide, w, hrun, hS, hF, hT, h1, h2, h3⟩

/-! ## The background task -/

/-- No event makes `autoLoad` leave its loop or makes the nil channel a made
one; the ticker is stopped only by receiving from `w.stop`, and a waiting
`Stop()` is released only by that receive. -/
theorem fire_keeps {t t1 : Task} {e : Event} (h : t.fire e = some t1) :
    t1.looping = t.looping ∧ t1.stopMade = t.stopMade
      ∧ (t.stopMade = false → t1.ticking = t.ticking ∧ (t.sending = true → t1.sending = true)) := by
  cases e with
  | callStop =>
    simp only [Task.fire, Option.some.injEq] at h
    subst h
    exact ⟨rfl, rfl, fun _ => ⟨rfl, fun _ => rfl⟩⟩
  | tick =>
    simp only [Task.fire] at h
    split at h
    · split at h
      · cases h
      · simp only [Option.some.injEq] at h
        subst h
        exact ⟨rfl, rfl, fun _ => ⟨rfl, fun hs => hs⟩⟩
    · cases h
  | recvStop =>
    simp only [Task.fire] at h
    split at h
    · rename_i hc
      simp only [Option.some.injEq] at h
      subst h
      refine ⟨rfl, rfl, fun hm => ?_⟩
      simp [hm] at hc
    · cases h

/-- On a task created by `NewWindowWithOption`, whatever happens, `w.stop`
stays the nil channel, `autoLoad` stays in its loop and the ticker keeps
running. -/
theorem fireAll_new (d : Int) (N : Nat) (es : List Event) (t : Task)
    (h : (NewTask d N).fireAll es = some t) :
    t.stopMade = false ∧ t.looping = true ∧ t.ticking = true := by
  have hgen : ∀ (es : List Event) (t0 t : Task), t0.fireAll es = some t →
      t0.stopMade = false → t0.looping = true → t0.ticking = true →
      t.stopMade = false ∧ t.looping = true ∧ t.ticking = true := by
    intro es
    induction es with
    | nil =>
      intro t0 t h h1 h2 h3
      simp only [Task.fireAll, Option.some.injEq] at h
      subst h
      exact ⟨h1, h2, h3⟩
    | cons e es ih =>
      intro t0 t h h1 h2 h3
      simp only [Task.fireAll] at h
      cases hf : t0.fire e with
      | none => rw [hf] at h; cases h
      | some t1 =>
        rw [hf] at h
        obtain ⟨k1, k2, k3⟩ := fire_keeps hf
        exact ih t1 t h (by rw [k2, h1]) (by rw [k1, h2]) (by rw [(k3 h1).1, h3])
  exact hgen es _ t h rfl rfl rfl

/-- C13 (code defect).  On a task created by `NewWindowWithOption(50, 2)`, a
caller enters `Stop()` and the ticker fires twice: the send of `Stop()` is
still waiting (it has not returned), the ticker is still running, `autoLoad`
is still in its loop and has rotated the window twice, and the receive from
`w.stop` cannot happen. -/
theorem C13_stop_never_returns :
    ∃ t, (NewTask 50 2).fireAll [Event.callStop, Event.tick, Event.tick] = some t
      ∧ t.sending = true ∧ t.ticking = true ∧ t.looping = true
      ∧ t.window.latest = 2 ∧ t.fire Event.recvStop = none
      ∧ (t.fire Event.tick).isSome = true := by
  refine ⟨_, rfl, ?_⟩
  decide

/-! ## float32 arithmetic: rounding and accuracy -/

theorem lg_eq_log2 : ∀ fuel n : Nat, n ≤ fuel → F32.lg fuel n = Nat.log2 n := by
  intro fuel
  induction fuel with
  | zero =>
    intro n hn
    have : n = 0 := by omega
    subst this
    simp [F32.lg, Nat.log2]
  | succ fuel ih =>
    intro n hn
    rw [Nat.log2]
    simp only [F32.lg]
    by_cases h2 : n ≥ 2
    · rw [if_pos h2, if_pos h2, ih (n / 2) (by omega)]
    · rw [if_neg h2, if_neg h2]

theorem log2_bracket (n : Nat) (hn : 0 < n) :
    2 ^ F32.log2 n ≤ n ∧ n < 2 ^ (F32.log2 n + 1) := by
  have h : F32.log2 n = Nat.log2 n := lg_eq_log2 n n (Nat.le_refl _)
  have hne : n ≠ 0 := by omega
  rw [h]
  exact ⟨(Nat.le_log2 hne).1 (Nat.le_refl _), (Nat.log2_lt hne).1 (Nat.lt_succ_self _)⟩

theorem scale_pos (a b : Nat) (k : Int) (hb : 0 < b) : 0 < (F32.scale a b k).2 := by
  simp only [F32.scale]
  positivity

theorem scale_val (a b : Nat) (k : Int) (hb : 0 < b) :
    (((F32.scale a b k).1 : Nat) : ℚ) / (((F32.scale a b k).2 : Nat) : ℚ)
      = (a : ℚ) / (b : ℚ) * (2 : ℚ) ^ k := by
  have hb0 : (b : ℚ) ≠ 0 := by exact_mod_cast hb.ne'
  simp only [F32.scale]
  push_cast
  rcases le_total 0 k with hk | hk
  · have h1 : (-k).toNat = 0 := by omega
    have h2 : ((k.toNat : Int)) = k := Int.toNat_of_nonneg hk
    rw [h1, pow_zero, mul_one, ← zpow_natCast (2 : ℚ) k.toNat, h2]
    field_simp
  · have h1 : k.toNat = 0 := by omega
    have h2 : (((-k).toNat : Int)) = -k := Int.toNat_of_nonneg (by omega)
    rw [h1, pow_zero, mul_one, ← zpow_natCast (2 : ℚ) (-k).toNat, h2, zpow_neg]
    field_simp

theorem two_zpow_pos (k : Int) : (0 : ℚ) < (2 : ℚ) ^ k := zpow_pos (by norm_num) k

theorem exp_bracket (a b : Nat) (ha : 0 < a) (hb : 0 < b) (e0 e : Int)
    (he0 : e0 = (F32.log2 a : Int) - (F32.log2 b : Int))
    (he : e = if (F32.scale a b (-e0)).1 < (F32.scale a b (-e0)).2 then e0 - 1 else e0) :
    (2 : ℚ) ^ e ≤ (a : ℚ) / (b : ℚ) ∧ (a : ℚ) / (b : ℚ) < (2 : ℚ) ^ (e + 1) := by
  have h2 : (2 : ℚ) ≠ 0 := by norm_num
  obtain ⟨hal, hau⟩ := log2_bracket a ha
  obtain ⟨hbl, hbu⟩ := log2_bracket b hb
  have hal' : (2 : ℚ) ^ (F32.log2 a : Int) ≤ (a : ℚ) := by
    rw [zpow_natCast]; exact_mod_cast hal
  have hau' : (a : ℚ) < (2 : ℚ) ^ (F32.log2 a : Int) * 2 := by
    rw [zpow_natCast]; exact_mod_cast (by rw [← pow_succ]; exact hau)
  have hbl' : (2 : ℚ) ^ (F32.log2 b : Int) ≤ (b : ℚ) := by
    rw [zpow_natCast]; exact_mod_cast hbl
  have hbu' : (b : ℚ) < (2 : ℚ) ^ (F32.log2 b : Int) * 2 := by
    rw [zpow_natCast]; exact_mod_cast (by rw [← pow_succ]; exact hbu)
  have hbq : (0 : ℚ) < (b : ℚ) := by exact_mod_cast hb
  have hpa := two_zpow_pos (F32.log2 a : Int)
  have hpb := two_zpow_pos (F32.log2 b : Int)
  have hE0 : (2 : ℚ) ^ e0 = (2 : ℚ) ^ (F32.log2 a : Int) / (2 : ℚ) ^ (F32.log2 b : Int) := by
    rw [he0, zpow_sub₀ h2]
  -- the coarse bracket
  have hlow : (2 : ℚ) ^ e0 / 2 < (a : ℚ) / (b : ℚ) := by
    rw [hE0, div_div, div_lt_div_iff₀ (by positivity) hbq]
    nlinarith
  have hupp : (a : ℚ) / (b : ℚ) < (2 : ℚ) ^ e0 * 2 := by
    rw [hE0, div_mul_eq_mul_div, div_lt_div_iff₀ hbq hpb]
    nlinarith
  -- the test decides on which side of `2^e0` the fraction lies
  have hd := scale_pos a b (-e0) hb
  have hdq : (0 : ℚ) < (((F32.scale a b (-e0)).2 : Nat) : ℚ) := by exact_mod_cast hd
  have hval := scale_val a b (-e0) hb
  have htest : (F32.scale a b (-e0)).1 < (F32.scale a b (-e0)).2
      ↔ (a : ℚ) / (b : ℚ) < (2 : ℚ) ^ e0 := by
    have h1 : (F32.scale a b (-e0)).1 < (F32.scale a b (-e0)).2
        ↔ (((F32.scale a b (-e0)).1 : Nat) : ℚ) / (((F32.scale a b (-e0)).2 : Nat) : ℚ) < 1 := by
      rw [div_lt_one hdq]; exact_mod_cast Iff.rfl
    rw [h1, hval, zpow_neg, ← div_eq_mul_inv, div_lt_one (two_zpow_pos e0)]
  by_cases hc : (F32.scale a b (-e0)).1 < (F32.scale a b (-e0)).2
  · rw [if_pos hc] at he
    subst he
    have hx := htest.1 hc
    refine ⟨?_, ?_⟩
    · rw [zpow_sub_one₀ h2, ← div_eq_mul_inv]; exact hlow.le
    · rw [sub_add_cancel]; exact hx
  · rw [if_neg hc] at he
    subst he
    have hx : (2 : ℚ) ^ e ≤ (a : ℚ) / (b : ℚ) := not_lt.1 (fun h => hc (htest.2 h))
    exact ⟨hx, by rw [zpow_add_one₀ h2]; exact hupp⟩

/-- Rounding a fraction `n / d` to the nearest integer, ties to even, moves it
by at most one half. -/
theorem nearest_half (n d : Nat) (hd : 0 < d) :
    |(((if 2 * (n % d) < d then n / d else if d < 2 * (n % d) then n / d + 1
        else if (n / d) % 2 = 0 then n / d else n / d + 1 : Nat) : ℚ)) - (n : ℚ) / (d : ℚ)|
      ≤ 1 / 2 := by
  have hdq : (0 : ℚ) < (d : ℚ) := by exact_mod_cast hd
  have hdiv : (n : ℚ) = (d : ℚ) * ((n / d : Nat) : ℚ) + ((n % d : Nat) : ℚ) := by
    exact_mod_cast (Nat.div_add_mod n d).symm
  have hr : n % d < d := Nat.mod_lt n hd
  have hrq : ((n % d : Nat) : ℚ) < (d : ℚ) := by exact_mod_cast hr
  have hr0 : (0 : ℚ) ≤ ((n % d : Nat) : ℚ) := by positivity
  have hfrac : (n : ℚ) / (d : ℚ) = ((n / d : Nat) : ℚ) + ((n % d : Nat) : ℚ) / (d : ℚ) := by
    rw [hdiv]; field_simp; ring
  have down : 2 * (n % d) ≤ d →
      |((n / d : Nat) : ℚ) - (n : ℚ) / (d : ℚ)| ≤ 1 / 2 := by
    intro h
    have hq : (2 : ℚ) * ((n % d : Nat) : ℚ) ≤ (d : ℚ) := by exact_mod_cast h
    rw [hfrac, abs_le]
    constructor
    · have : ((n % d : Nat) : ℚ) / (d : ℚ) ≤ 1 / 2 := by
        rw [div_le_div_iff₀ hdq (by norm_num)]; linarith
      linarith
    · have : (0 : ℚ) ≤ ((n % d : Nat) : ℚ) / (d : ℚ) := by positivity
      linarith
  have up : d ≤ 2 * (n % d) →
      |((n / d + 1 : Nat) : ℚ) - (n : ℚ) / (d : ℚ)| ≤ 1 / 2 := by
    intro h
    have hq : (d : ℚ) ≤ (2 : ℚ) * ((n % d : Nat) : ℚ) := by exact_mod_cast h
    rw [hfrac, abs_le]
    push_cast
    constructor
    · have : ((n % d : Nat) : ℚ) / (d : ℚ) < 1 := by
        rw [div_lt_one hdq]; exact hrq
      linarith
    · have : 1 / 2 ≤ ((n % d : Nat) : ℚ) / (d : ℚ) := by
        rw [div_le_div_iff₀ (by norm_num) hdq]; linarith
      linarith
  split
  · exact down (by omega)
  · split
    · exact up (by omega)
    · split
      · exact down (by omega)
      · exact up (by omega)

theorem round_spec (neg : Bool) (a b : Nat) (ha : 0 < a) (hb : 0 < b)
    (hlo : (2 : ℚ) ^ (-126 : Int) ≤ (a : ℚ) / (b : ℚ))
    (hhi : (a : ℚ) / (b : ℚ) < (2 : ℚ) ^ (127 : Int)) :
    ∃ m e, F32.round neg a b = F32.fin neg m e ∧ 0 < m
      ∧ |(m : ℚ) * (2 : ℚ) ^ e - (a : ℚ) / (b : ℚ)| ≤ (a : ℚ) / (b : ℚ) * (2 : ℚ) ^ (-24 : Int) := by
  have h2 : (2 : ℚ) ≠ 0 := by norm_num
  have h12 : (1 : ℚ) < 2 := by norm_num
  obtain ⟨e0, he0⟩ : ∃ e0 : Int, e0 = (F32.log2 a : Int) - (F32.log2 b : Int) := ⟨_, rfl⟩
  obtain ⟨e, he⟩ : ∃ e : Int,
      e = if (F32.scale a b (-e0)).1 < (F32.scale a b (-e0)).2 then e0 - 1 else e0 := ⟨_, rfl⟩
  obtain ⟨hel, heu⟩ := exp_bracket a b ha hb e0 e he0 he
  have he_lo : -126 ≤ e := by
    have := lt_of_le_of_lt hlo heu
    rw [zpow_lt_zpow_iff_right₀ h12] at this
    omega
  have he_hi : e ≤ 126 := by
    have := lt_of_le_of_lt hel hhi
    rw [zpow_lt_zpow_iff_right₀ h12] at this
    omega
  have hu : max (e - 23) (-149) = e - 23 := max_eq_left (by omega)
  have hd := scale_pos a b (-(e - 23)) hb
  have hdq : (0 : ℚ) < (((F32.scale a b (-(e - 23))).2 : Nat) : ℚ) := by exact_mod_cast hd
  have hval := scale_val a b (-(e - 23)) hb
  have hm := nearest_half (F32.scale a b (-(e - 23))).1 (F32.scale a b (-(e - 23))).2 hd
  obtain ⟨res, hround⟩ : ∃ res, res = F32.round neg a b := ⟨_, rfl⟩
  rw [← hround]
  unfold F32.round at hround
  rw [if_neg ha.ne'] at hround
  simp only [← he0, ← he, hu] at hround
  revert hm hround
  generalize (if 2 * ((F32.scale a b (-(e - 23))).1 % (F32.scale a b (-(e - 23))).2)
        < (F32.scale a b (-(e - 23))).2 then
      (F32.scale a b (-(e - 23))).1 / (F32.scale a b (-(e - 23))).2
    else if (F32.scale a b (-(e - 23))).2
        < 2 * ((F32.scale a b (-(e - 23))).1 % (F32.scale a b (-(e - 23))).2) then
      (F32.scale a b (-(e - 23))).1 / (F32.scale a b (-(e - 23))).2 + 1
    else if (F32.scale a b (-(e - 23))).1 / (F32.scale a b (-(e - 23))).2 % 2 = 0 then
      (F32.scale a b (-(e - 23))).1 / (F32.scale a b (-(e - 23))).2
    else (F32.scale a b (-(e - 23))).1 / (F32.scale a b (-(e - 23))).2 + 1) = m
  intro hm hround
  have hP : (0 : ℚ) < (2 : ℚ) ^ (e - 23) := two_zpow_pos _
  have hPe : (2 : ℚ) ^ (e - 23) = (2 : ℚ) ^ e / 2 ^ (23 : Nat) := by
    rw [zpow_sub₀ h2]; norm_cast
  have hy : (((F32.scale a b (-(e - 23))).1 : Nat) : ℚ)
      / (((F32.scale a b (-(e - 23))).2 : Nat) : ℚ) = (a : ℚ) / (b : ℚ) / (2 : ℚ) ^ (e - 23) := by
    rw [hval, zpow_neg]; exact (div_eq_mul_inv _ _).symm
  rw [hy] at hm
  have hxP : (a : ℚ) / (b : ℚ) = (a : ℚ) / (b : ℚ) / (2 : ℚ) ^ (e - 23) * (2 : ℚ) ^ (e - 23) :=
    (div_mul_cancel₀ _ hP.ne').symm
  have hylow : (2 : ℚ) ^ (23 : Nat) ≤ (a : ℚ) / (b : ℚ) / (2 : ℚ) ^ (e - 23) := by
    rw [le_div_iff₀ hP, hPe]
    have : (2 : ℚ) ^ (23 : Nat) * ((2 : ℚ) ^ e / 2 ^ (23 : Nat)) = (2 : ℚ) ^ e := by
      field_simp
    rw [this]; exact hel
  have hmq : (0 : ℚ) < (m : ℚ) := by
    have h1 := (abs_le.1 hm).1
    have h23 : (1 : ℚ) ≤ (2 : ℚ) ^ (23 : Nat) := one_le_pow₀ (by norm_num)
    linarith
  have hmpos : 0 < m := by exact_mod_cast hmq
  have herr : |(m : ℚ) * (2 : ℚ) ^ (e - 23) - (a : ℚ) / (b : ℚ)|
      ≤ (a : ℚ) / (b : ℚ) * (2 : ℚ) ^ (-24 : Int) := by
    have h1 : (m : ℚ) * (2 : ℚ) ^ (e - 23) - (a : ℚ) / (b : ℚ)
        = ((m : ℚ) - (a : ℚ) / (b : ℚ) / (2 : ℚ) ^ (e - 23)) * (2 : ℚ) ^ (e - 23) := by
      rw [sub_mul, ← hxP]
    rw [h1, abs_mul, abs_of_pos hP]
    have h24 : (2 : ℚ) ^ (-24 : Int) = 1 / 2 ^ (24 : Nat) := by
      rw [zpow_neg, one_div]; norm_cast
    calc |(m : ℚ) - (a : ℚ) / (b : ℚ) / (2 : ℚ) ^ (e - 23)| * (2 : ℚ) ^ (e - 23)
        ≤ 1 / 2 * (2 : ℚ) ^ (e - 23) := mul_le_mul_of_nonneg_right hm hP.le
      _ = (2 : ℚ) ^ e * (2 : ℚ) ^ (-24 : Int) := by rw [hPe, h24]; ring
      _ ≤ (a : ℚ) / (b : ℚ) * (2 : ℚ) ^ (-24 : Int) :=
          mul_le_mul_of_nonneg_right hel (two_zpow_pos _).le
  rw [if_neg hmpos.ne'] at hround
  by_cases hcarry : m = 2 ^ 24
  · rw [if_pos hcarry, if_neg (by omega)] at hround
    refine ⟨2 ^ 23, e - 23 + 1, hround, by positivity, ?_⟩
    have hsame : (((2 ^ 23 : Nat) : ℚ)) * (2 : ℚ) ^ (e - 23 + 1)
        = (m : ℚ) * (2 : ℚ) ^ (e - 23) := by
      rw [hcarry, zpow_add_one₀ h2]; push_cast; ring
    rw [hsame]; exact herr
  · rw [if_neg hcarry, if_neg (by omega)] at hround
    exact ⟨m, e - 23, hround, hmpos, herr⟩

theorem ofInt_spec (x : Int) (h0 : 0 < x) (h63 : x < 2 ^ 63) :
    ∃ m e, F32.ofInt x = F32.fin false m e ∧ 0 < m
      ∧ |(m : ℚ) * (2 : ℚ) ^ e - (x : ℚ)| ≤ (x : ℚ) * (2 : ℚ) ^ (-24 : Int) := by
  have hneg : decide (x < 0) = false := by simp; omega
  have hcast : ((x.natAbs : Nat) : ℚ) = (x : ℚ) := by
    have h : ((x.natAbs : Nat) : Int) = x := Int.natAbs_of_nonneg h0.le
    calc ((x.natAbs : Nat) : ℚ) = (((x.natAbs : Nat) : Int) : ℚ) := (Int.cast_natCast _).symm
      _ = (x : ℚ) := by rw [h]
  have hx1 : (1 : ℚ) ≤ (x : ℚ) := by exact_mod_cast h0
  have hx63 : (x : ℚ) < 2 ^ (63 : Nat) := by exact_mod_cast h63
  have hfrac : ((x.natAbs : Nat) : ℚ) / ((1 : Nat) : ℚ) = (x : ℚ) := by
    rw [hcast]; simp
  have hlo : (2 : ℚ) ^ (-126 : Int) ≤ ((x.natAbs : Nat) : ℚ) / ((1 : Nat) : ℚ) := by
    rw [hfrac]
    have : (2 : ℚ) ^ (-126 : Int) ≤ 1 := by
      rw [zpow_neg]; exact inv_le_one_of_one_le₀ (one_le_zpow₀ (by norm_num) (by norm_num))
    linarith
  have hhi : ((x.natAbs : Nat) : ℚ) / ((1 : Nat) : ℚ) < (2 : ℚ) ^ (127 : Int) := by
    rw [hfrac]
    have : (2 : ℚ) ^ (63 : Nat) ≤ (2 : ℚ) ^ (127 : Int) := by
      rw [← zpow_natCast]; exact zpow_le_zpow_right₀ (by norm_num) (by norm_num)
    linarith
  obtain ⟨m, e, hr, hm, herr⟩ := round_spec false x.natAbs 1 (by omega) (by norm_num) hlo hhi
  rw [hfrac] at herr
  exact ⟨m, e, by rw [F32.ofInt, hneg]; exact hr, hm, herr⟩

theorem div_spec (m1 m2 : Nat) (e1 e2 : Int) (h1 : 0 < m1) (h2 : 0 < m2)
    (hlo : (2 : ℚ) ^ (-126 : Int) ≤ (m1 : ℚ) * (2 : ℚ) ^ e1 / ((m2 : ℚ) * (2 : ℚ) ^ e2))
    (hhi : (m1 : ℚ) * (2 : ℚ) ^ e1 / ((m2 : ℚ) * (2 : ℚ) ^ e2) < (2 : ℚ) ^ (127 : Int)) :
    ∃ m e, F32.div (F32.fin false m1 e1) (F32.fin false m2 e2) = F32.fin false m e ∧ 0 < m
      ∧ |(m : ℚ) * (2 : ℚ) ^ e - (m1 : ℚ) * (2 : ℚ) ^ e1 / ((m2 : ℚ) * (2 : ℚ) ^ e2)|
        ≤ (m1 : ℚ) * (2 : ℚ) ^ e1 / ((m2 : ℚ) * (2 : ℚ) ^ e2) * (2 : ℚ) ^ (-24 : Int) := by
  have h20 : (2 : ℚ) ≠ 0 := by norm_num
  have hval := scale_val m1 m2 (e1 - e2) h2
  have hfrac : (((F32.scale m1 m2 (e1 - e2)).1 : Nat) : ℚ)
      / (((F32.scale m1 m2 (e1 - e2)).2 : Nat) : ℚ)
      = (m1 : ℚ) * (2 : ℚ) ^ e1 / ((m2 : ℚ) * (2 : ℚ) ^ e2) := by
    have hm2 : (m2 : ℚ) ≠ 0 := by exact_mod_cast h2.ne'
    have hp2 : (2 : ℚ) ^ e2 ≠ 0 := (two_zpow_pos e2).ne'
    rw [hval, zpow_sub₀ h20]
    field_simp
  have hapos : 0 < (F32.scale m1 m2 (e1 - e2)).1 := by
    simp only [F32.scale]; positivity
  have hbpos := scale_pos m1 m2 (e1 - e2) h2
  rw [← hfrac] at hlo hhi
  obtain ⟨m, e, hr, hm, herr⟩ := round_spec false _ _ hapos hbpos hlo hhi
  rw [hfrac] at herr
  refine ⟨m, e, ?_, hm, herr⟩
  simp only [F32.div, if_neg h2.ne', Bool.xor_false]
  exact hr

/-- Three roundings of relative size `u ≤ 1/8` add up to less than `4 * u`. -/
theorem compose_err (X T v1 v2 q u : ℚ) (hX : 0 < X) (hT : 0 < T) (hu0 : 0 < u)
    (hu : u ≤ 1 / 8) (h1 : |v1 - X| ≤ X * u) (h2 : |v2 - T| ≤ T * u)
    (h3 : |q - v1 / v2| ≤ v1 / v2 * u) : |q - X / T| ≤ X / T * (4 * u) := by
  obtain ⟨h1l, h1u⟩ := abs_le.1 h1
  obtain ⟨h2l, h2u⟩ := abs_le.1 h2
  obtain ⟨h3l, h3u⟩ := abs_le.1 h3
  have hTm : 0 < T * (1 - u) := mul_pos hT (by linarith)
  have hXm : 0 < X * (1 - u) := mul_pos hX (by linarith)
  have hTp : 0 < T * (1 + u) := mul_pos hT (by linarith)
  have hv2 : 0 < v2 := by linarith
  have hv1 : 0 < v1 := by linarith
  have hA : 0 < v1 / v2 := div_pos hv1 hv2
  have hAv : v1 / v2 * v2 = v1 := div_mul_cancel₀ _ hv2.ne'
  have hATu : v1 / v2 * (T * (1 - u)) ≤ X * (1 + u) := by
    have h : v1 / v2 * (T * (1 - u)) ≤ v1 / v2 * v2 :=
      mul_le_mul_of_nonneg_left (by linarith) hA.le
    linarith
  have hATl : X * (1 - u) ≤ v1 / v2 * (T * (1 + u)) := by
    have h : v1 / v2 * v2 ≤ v1 / v2 * (T * (1 + u)) :=
      mul_le_mul_of_nonneg_left (by linarith) hA.le
    linarith
  have hqT_u : q * T ≤ X * (1 + 4 * u) := by
    have hq1 : q ≤ v1 / v2 * (1 + u) := by linarith
    have s1 : q * (T * (1 - u)) ≤ v1 / v2 * (1 + u) * (T * (1 - u)) :=
      mul_le_mul_of_nonneg_right hq1 hTm.le
    have s2 : (1 + u) * (v1 / v2 * (T * (1 - u))) ≤ (1 + u) * (X * (1 + u)) :=
      mul_le_mul_of_nonneg_left hATu (by linarith)
    have s3 : 0 ≤ X * u * (1 - 5 * u) :=
      mul_nonneg (mul_nonneg hX.le hu0.le) (by linarith)
    have s4 : q * T * (1 - u) ≤ X * (1 + 4 * u) * (1 - u) := by linarith
    exact le_of_mul_le_mul_right s4 (by linarith)
  have hqT_l : X * (1 - 4 * u) ≤ q * T := by
    have hq1 : v1 / v2 * (1 - u) ≤ q := by linarith
    have s1 : v1 / v2 * (1 - u) * (T * (1 + u)) ≤ q * (T * (1 + u)) :=
      mul_le_mul_of_nonneg_right hq1 hTp.le
    have s2 : (1 - u) * (X * (1 - u)) ≤ (1 - u) * (v1 / v2 * (T * (1 + u))) :=
      mul_le_mul_of_nonneg_left hATl (by linarith)
    have s3 : 0 ≤ X * u * (1 + 5 * u) :=
      mul_nonneg (mul_nonneg hX.le hu0.le) (by linarith)
    have s4 : X * (1 - 4 * u) * (1 + u) ≤ q * T * (1 + u) := by linarith
    exact le_of_mul_le_mul_right s4 (by linarith)
  have hXT : X / T * T = X := div_mul_cancel₀ _ hT.ne'
  rw [abs_le]
  constructor
  · have h : (-(X / T * (4 * u))) * T ≤ (q - X / T) * T := by
      have e1 : (-(X / T * (4 * u))) * T = -(X / T * T) * (4 * u) := by ring
      have e2 : (q - X / T) * T = q * T - X / T * T := by ring
      rw [e1, e2, hXT]; linarith
    exact le_of_mul_le_mul_right h hT
  · have h : (q - X / T) * T ≤ X / T * (4 * u) * T := by
      have e1 : X / T * (4 * u) * T = X / T * T * (4 * u) := by ring
      have e2 : (q - X / T) * T = q * T - X / T * T := by ring
      rw [e1, e2, hXT]; linarith
    exact le_of_mul_le_mul_right h hT

/-- The `float32` quotient of two converted integers in the `int64` range, the
divisor positive and the dividend not negative, is a finite number within a
relative distance `2^-22` of the exact quotient. -/
theorem div_ofInt_accuracy (x T : Int) (hx : 0 ≤ x) (hx63 : x < 2 ^ 63) (hT0 : 0 < T)
    (hT63 : T < 2 ^ 63) :
    ∃ q : ℚ, (F32.div (F32.ofInt x) (F32.ofInt T)).toRat = some q
      ∧ |q - (x : ℚ) / (T : ℚ)| ≤ (x : ℚ) / (T : ℚ) * (2 : ℚ) ^ (-22 : Int) := by
  have hu : (2 : ℚ) ^ (-24 : Int) = 1 / 16777216 := by
    rw [zpow_neg, one_div]; norm_num
  have hu4 : (2 : ℚ) ^ (-22 : Int) = 4 * (2 : ℚ) ^ (-24 : Int) := by
    rw [hu, zpow_neg]; norm_num
  obtain ⟨m2, e2, hT, hm2, herr2⟩ := ofInt_spec T hT0 hT63
  rcases eq_or_lt_of_le hx with hx0 | hxpos
  · -- the dividend is zero
    subst hx0
    refine ⟨0, ?_, by simp⟩
    have h0 : F32.ofInt 0 = F32.fin false 0 0 := by decide
    rw [h0, hT]
    simp [F32.div, hm2.ne', F32.scale, F32.round, F32.toRat]
  · obtain ⟨m1, e1, hX, hm1, herr1⟩ := ofInt_spec x hxpos hx63
    have hTq : (0 : ℚ) < (T : ℚ) := by exact_mod_cast hT0
    have hXq : (0 : ℚ) < (x : ℚ) := by exact_mod_cast hxpos
    have hT1 : (1 : ℚ) ≤ (T : ℚ) := by exact_mod_cast hT0
    have hX1 : (1 : ℚ) ≤ (x : ℚ) := by exact_mod_cast hxpos
    have hTu : (T : ℚ) < 2 ^ (63 : Nat) := by exact_mod_cast hT63
    have hXu : (x : ℚ) < 2 ^ (63 : Nat) := by exact_mod_cast hx63
    rw [hu] at herr1 herr2
    obtain ⟨h1l, h1u⟩ := abs_le.1 herr1
    obtain ⟨h2l, h2u⟩ := abs_le.1 herr2
    have hv1l : (1 : ℚ) / 2 ≤ (m1 : ℚ) * (2 : ℚ) ^ e1 := by linarith
    have hv2l : (1 : ℚ) / 2 ≤ (m2 : ℚ) * (2 : ℚ) ^ e2 := by linarith
    have hv1u : (m1 : ℚ) * (2 : ℚ) ^ e1 ≤ 2 ^ (64 : Nat) := by
      have : (2 : ℚ) ^ (64 : Nat) = 2 * 2 ^ (63 : Nat) := by norm_num
      linarith
    have hv2u : (m2 : ℚ) * (2 : ℚ) ^ e2 ≤ 2 ^ (64 : Nat) := by
      have : (2 : ℚ) ^ (64 : Nat) = 2 * 2 ^ (63 : Nat) := by norm_num
      linarith
    have hv2pos : (0 : ℚ) < (m2 : ℚ) * (2 : ℚ) ^ e2 := by linarith
    have hlo : (2 : ℚ) ^ (-126 : Int)
        ≤ (m1 : ℚ) * (2 : ℚ) ^ e1 / ((m2 : ℚ) * (2 : ℚ) ^ e2) := by
      rw [le_div_iff₀ hv2pos]
      have h126 : (2 : ℚ) ^ (-126 : Int) * 2 ^ (64 : Nat) ≤ 1 / 2 := by
        rw [zpow_neg, ← zpow_natCast]; norm_num
      calc (2 : ℚ) ^ (-126 : Int) * ((m2 : ℚ) * (2 : ℚ) ^ e2)
          ≤ (2 : ℚ) ^ (-126 : Int) * 2 ^ (64 : Nat) :=
            mul_le_mul_of_nonneg_left hv2u (two_zpow_pos _).le
        _ ≤ 1 / 2 := h126
        _ ≤ (m1 : ℚ) * (2 : ℚ) ^ e1 := hv1l
    have hhi : (m1 : ℚ) * (2 : ℚ) ^ e1 / ((m2 : ℚ) * (2 : ℚ) ^ e2) < (2 : ℚ) ^ (127 : Int) := by
      rw [div_lt_iff₀ hv2pos]
      have h127 : (2 : ℚ) ^ (64 : Nat) < (2 : ℚ) ^ (127 : Int) * (1 / 2) := by
        norm_num
      calc (m1 : ℚ) * (2 : ℚ) ^ e1 ≤ 2 ^ (64 : Nat) := hv1u
        _ < (2 : ℚ) ^ (127 : Int) * (1 / 2) := h127
        _ ≤ (2 : ℚ) ^ (127 : Int) * ((m2 : ℚ) * (2 : ℚ) ^ e2) :=
            mul_le_mul_of_nonneg_left hv2l (two_zpow_pos _).le
    obtain ⟨m, e, hdiv, hm, herr⟩ := div_spec m1 m2 e1 e2 hm1 hm2 hlo hhi
    rw [hu] at herr
    refine ⟨(m : ℚ) * (2 : ℚ) ^ e, ?_, ?_⟩
    · rw [hX, hT, hdiv]; simp [F32.toRat]
    · rw [hu4, hu]
      exact compose_err (x : ℚ) (T : ℚ) _ _ _ (1 / 16777216) hXq hTq (by norm_num)
        (by norm_num) herr1 herr2 herr

/-- The `float32` model on the values the source computes: one third and six
sevenths round as binary32 does, and `0 / 0` is not-a-number. -/
theorem F32_examples :
    F32.div (F32.ofInt 1) (F32.ofInt 3) = F32.fin false 11184811 (-25)
      ∧ F32.div (F32.ofInt 6) (F32.ofInt 7) = F32.fin false 14380471 (-24)
      ∧ F32.ofInt 16777217 = F32.fin false 8388608 1
      ∧ F32.div (F32.ofInt 0) (F32.ofInt 0) = F32.nan
      ∧ F32.div (F32.ofInt 1) (F32.ofInt 0) = F32.inf false := by
  decide

/-- The rates of two short runs: after one success, one failure and one
timeout `SuccessRate()` is `11184811 / 2^25`; with counts 1, 2 and 4
`ErrorRate()` is `14380471 / 2^24`. -/
theorem rateF32_examples :
    ((NewWindowWithOption 50 3).run [Op.Succeed, Op.Fail, Op.Timeout]).bind
        Window.SuccessRateF32 = some (F32.fin false 11184811 (-25))
      ∧ ((NewWindowWithOption 50 3).run [Op.Succeed, Op.Fail, Op.Fail, Op.Timeout, Op.Timeout,
          Op.Timeout, Op.Timeout]).bind Window.ErrorRateF32
        = some (F32.fin false 14380471 (-24)) := by
  decide

/-- C11 (rate definitions).  In every window state whose cursor is inside the
ring, with `s`, `f`, `t` the three counts and `total = s + f + t`: when
`total == 0` both `SuccessRate()` and `ErrorRate()` return exactly
`float32(0)`, not a NaN; when `total != 0`, `SuccessRate()` is the `float32`
quotient `float32(s) / float32(total)` and `ErrorRate()` is
`float32(f+t) / float32(total)`, so failures and timeouts both count as errors;
and for counts that are not negative with a total in the `int64` range both
results are finite numbers within a relative distance `2^-22` of `s / total`
and `(f+t) / total`. -/
theorem C11_rate_definitions (w : Window) (hl : w.latest < w.buckets.length) :
    ∃ s f t : Int, w.SuccessCount = some s ∧ w.FailCount = some f ∧ w.TimeoutCount = some t
      ∧ (s + f + t = 0 →
          w.SuccessRateF32 = some (F32.fin false 0 0)
            ∧ w.ErrorRateF32 = some (F32.fin false 0 0))
      ∧ (s + f + t ≠ 0 →
          w.SuccessRateF32 = some (F32.div (F32.ofInt s) (F32.ofInt (s + f + t)))
            ∧ w.ErrorRateF32 = some (F32.div (F32.ofInt (f + t)) (F32.ofInt (s + f + t))))
      ∧ (0 ≤ s → 0 ≤ f → 0 ≤ t → 0 < s + f + t → s + f + t < 2 ^ 63 →
          ∃ qs qe : ℚ, w.SuccessRateF32.bind F32.toRat = some qs
            ∧ w.ErrorRateF32.bind F32.toRat = some qe
            ∧ |qs - (s : ℚ) / ((s + f + t : Int) : ℚ)|
                ≤ (s : ℚ) / ((s + f + t : Int) : ℚ) * (2 : ℚ) ^ (-22 : Int)
            ∧ |qe - ((f + t : Int) : ℚ) / ((s + f + t : Int) : ℚ)|
                ≤ ((f + t : Int) : ℚ) / ((s + f + t : Int) : ℚ) * (2 : ℚ) ^ (-22 : Int)) := by
  have hget := List.getElem?_eq_getElem hl
  have hzero : F32.ofInt 0 = F32.fin false 0 0 := by decide
  refine ⟨(w.buckets[w.latest]).SuccessCount + w.preSuccess,
    (w.buckets[w.latest]).FailCount + w.preFail,
    (w.buckets[w.latest]).TimeoutCount + w.preTimeout, ?_, ?_, ?_, ?_, ?_, ?_⟩
  · simp only [Window.SuccessCount, hget]
  · simp only [Window.FailCount, hget]
  · simp only [Window.TimeoutCount, hget]
  · intro h0
    simp only [Window.SuccessRateF32, Window.ErrorRateF32, hget, h0, if_true, hzero]
    exact ⟨trivial, trivial⟩
  · intro hne
    simp only [Window.SuccessRateF32, Window.ErrorRateF32, hget, hne, if_false]
    exact ⟨trivial, trivial⟩
  · intro hs hf ht hpos h63
    have hne : (w.buckets[w.latest]).SuccessCount + w.preSuccess
        + ((w.buckets[w.latest]).FailCount + w.preFail)
        + ((w.buckets[w.latest]).TimeoutCount + w.preTimeout) ≠ 0 := by omega
    obtain ⟨qs, hqs, hes⟩ := div_ofInt_accuracy _ _ hs (by omega) hpos h63
    obtain ⟨qe, hqe, hee⟩ := div_ofInt_accuracy
      ((w.buckets[w.latest]).FailCount + w.preFail
        + ((w.buckets[w.latest]).TimeoutCount + w.preTimeout)) _ (by omega) (by omega) hpos h63
    refine ⟨qs, qe, ?_, ?_, hes, hee⟩
    · simp only [Window.SuccessRateF32, hget, hne, if_false, Option.some_bind]
      exact hqs
    · simp only [Window.ErrorRateF32, hget, hne, if_false, Option.some_bind]
      exact hqe

/-- Witness of C11 on a window holding 3 successes, 1 failure and 2 timeouts:
both rates are one half. -/
theorem C11_rate_definitions_witness :
    sampleWindow.latest < sampleWindow.buckets.length
      ∧ sampleWindow.SuccessRateF32 = some (F32.fin false 8388608 (-24))
      ∧ sampleWindow.ErrorRateF32 = some (F32.fin false 8388608 (-24)) := by
  obtain ⟨s, f, t, hs, hf, ht, -, hnz, -⟩ := C11_rate_definitions sampleWindow (by decide)
  have hs3 : sampleWindow.SuccessCount = some 3 := by decide
  have hf1 : sampleWindow.FailCount = some 1 := by decide
  have ht2 : sampleWindow.TimeoutCount = some 2 := by decide
  rw [hs3] at hs
  rw [hf1] at hf
  rw [ht2] at ht
  cases hs
  cases hf
  cases ht
  obtain ⟨h1, h2⟩ := hnz (by decide)
  exact ⟨by decide, h1.trans (by decide), h2.trans (by decide)⟩

end goutils
